import Mathlib

/-!
Verification of the NCDOT crash-reporting poller (src/main.go) against its
natural-language specification.

The Go program is embedded shallowly:

* `Incident` mirrors the feed record struct (main.go:19-49).  The feed's
  `latitude`/`longitude` are `float64` in Go; the program performs no
  arithmetic on them (they are only stored and interpolated into a map link),
  so they are carried here as opaque numeric values of type `Int`.
* The notified-ID ledger file (`sent_incidents_ncdot.json`) is modeled as
  `Option String`: `none` is a missing file, `some s` is a file with content
  `s`.  `saveSentIncidents` (main.go:80-86) renders the `map[int]bool` with
  `json.MarshalIndent(m, "", "  ")`; that serialization is reproduced
  character by character below.  Go's encoder emits map entries in a
  deterministic (key-sorted) order; the entry order is immaterial to every
  property proved here, and our encoder emits entries in list order.
* `loadSentIncidents` (main.go:64-77) is modeled over the file content:
  a missing file or empty content yields the empty mapping, otherwise the
  content is decoded; a decode failure is an error (fatal in `main`).
  The decoder below accepts the serialized object format that the program
  itself writes ('\x7b' "key": bool, ... '\x7d' with arbitrary interleaved
  whitespace); `json.Unmarshal` additionally accepts other JSON spellings
  that the program never produces.
* The Postgres table `ncdot_incidents` is modeled as a list of rows
  (`Store`); `upsertIncident` (main.go:158-195) and the UPDATE in
  `clearOldCrashes` (main.go:225-228) become pure store transformations.
* Fallible external operations (db.Ping, the upsert Exec, the active-crash
  query, the cleared UPDATE Exec, time.LoadLocation, os.WriteFile) and the
  time-library boundary (time.Parse with the RFC3339 layout, formatting in
  America/New_York) are collected in an environment record `Env`.
* One process run (`main`, main.go:243-349) becomes `runMain`, which returns
  either `fatal` (log.Fatalf: process exits non-zero) carrying the untouched
  store and ledger file, or `completed` carrying the final store, final
  ledger file, the trace of externally visible calls (`Event`s), and the
  final in-memory notified set.
-/

/-- Lifecycle status of a stored incident row (`status` column). -/
inductive Status where
  | active
  | cleared
deriving DecidableEq, Repr

/-- Mirror of the Go `Incident` struct (main.go:19-49), one feed record.
`crossStreetPfx`/`crossStreetSfx` stand for the cross-street qualifier
fields of the Go struct (shortened names). -/
structure Incident where
  id : Int
  latitude : Int
  longitude : Int
  commonName : String
  reason : String
  condition : String
  incidentType : String
  severity : Int
  direction : String
  location : String
  countyId : Int
  countyName : String
  city : String
  startTime : String
  endTime : String
  lastUpdate : String
  road : String
  routeId : Int
  lanesClosed : Int
  lanesTotal : Int
  detour : String
  crossStreetPfx : String
  crossStreetNumber : Int
  crossStreetSfx : String
  crossStreetCommonName : String
  event : String
  createdFromConcurrent : Bool
  movableConstruction : String
  workZoneSpeedLimit : Int
deriving DecidableEq, Repr

/-- A row of the `ncdot_incidents` table: every inserted column of the
upsert statement (main.go:159-183), including `status` and `cleared_time`.
`clearedTime` is the nullable `cleared_time` column; timestamps are opaque
instants modeled as `Int`. -/
structure StoredIncident where
  id : Int
  latitude : Int
  longitude : Int
  commonName : String
  reason : String
  condition : String
  incidentType : String
  severity : Int
  direction : String
  location : String
  countyId : Int
  countyName : String
  city : String
  startTime : String
  endTime : String
  lastUpdate : String
  road : String
  routeId : Int
  lanesClosed : Int
  lanesTotal : Int
  detour : String
  crossStreetPfx : String
  crossStreetNumber : Int
  crossStreetSfx : String
  crossStreetCommonName : String
  event : String
  createdFromConcurrent : Bool
  movableConstruction : String
  workZoneSpeedLimit : Int
  status : Status
  clearedTime : Option Int
deriving DecidableEq, Repr

/-- Mirror of the Go `ClearedIncident` struct (main.go:56-61): the minimal
projection carried by a cleared notification. -/
structure ClearedIncident where
  id : Int
  road : String
  location : String
  city : String
deriving DecidableEq, Repr

/-- The in-memory notified-ID map `map[int]bool` (`sentIDs`), as an
association list with (by construction) pairwise-distinct keys. -/
abbrev NotifiedSet := List (Int × Bool)

/-- `sentIDs[k]` in Go: the stored value, or `false` when the key is
absent (Go zero value). -/
def sentMem (s : NotifiedSet) (k : Int) : Bool :=
  match s.find? (fun p => p.1 == k) with
  | some p => p.2
  | none => false

/-- `sentIDs[k] = v` in Go: update the key in place, or append it. -/
def sentSet (s : NotifiedSet) (k : Int) (v : Bool) : NotifiedSet :=
  if s.any (fun p => p.1 == k) then
    s.map (fun p => if p.1 == k then (k, v) else p)
  else
    s ++ [(k, v)]

/-- Keys of a notified set. -/
def sentKeys (s : NotifiedSet) : List Int := s.map (fun p => p.1)

/-! ## Ledger serialization (`saveSentIncidents`, main.go:80-86)

`json.MarshalIndent(sentIDs, "", "  ")` renders the map as a JSON object,
one `"key": bool` entry per line, indented by two spaces. -/

/-- The decimal digit character for `d < 10`. -/
def digitChar (d : Nat) : Char := Char.ofNat (48 + d)

/-- Digit characters of `n`, most significant first, prepended to `acc`.
The first argument is fuel; it suffices whenever `n ≤ fuel`. -/
def natToDigitsAux : Nat → Nat → List Char → List Char
  | 0, _, acc => acc
  | _ + 1, 0, acc => acc
  | fuel + 1, n + 1, acc =>
      natToDigitsAux fuel ((n + 1) / 10) (digitChar ((n + 1) % 10) :: acc)

/-- Decimal digit characters of a natural number (`"0"` for zero). -/
def natToDigits (n : Nat) : List Char :=
  if n == 0 then ['0'] else natToDigitsAux n n []

/-- Decimal character rendering of an integer map key, as Go's JSON encoder
writes it. -/
def intToChars : Int → List Char
  | .ofNat n => natToDigits n
  | .negSucc n => '-' :: natToDigits (n + 1)

/-- JSON rendering of a boolean value. -/
def boolChars (b : Bool) : List Char :=
  if b then ['t', 'r', 'u', 'e'] else ['f', 'a', 'l', 's', 'e']

/-- One indented `"key": value` line body (without separators). -/
def encodeEntryChars (p : Int × Bool) : List Char :=
  ' ' :: ' ' :: '\x22' :: (intToChars p.1 ++ '\x22' :: ':' :: ' ' :: boolChars p.2)

/-- The entry lines, separated by `",\n"`. -/
def encodeEntriesChars : NotifiedSet → List Char
  | [] => []
  | [p] => encodeEntryChars p
  | p :: q :: rest => encodeEntryChars p ++ ',' :: '\n' :: encodeEntriesChars (q :: rest)

/-- Character stream of `json.MarshalIndent(m, "", "  ")` for a
`map[int]bool` (entries in list order; see the header note on ordering). -/
def encodeChars (m : NotifiedSet) : List Char :=
  match m with
  | [] => ['\x7b', '\x7d']
  | _ => '\x7b' :: '\n' :: (encodeEntriesChars m ++ ['\n', '\x7d'])

/-- `saveSentIncidents` (main.go:80-86), as the file content it writes. -/
def saveSentIncidents (m : NotifiedSet) : String :=
  String.mk (encodeChars m)

/-! ## Ledger deserialization (`loadSentIncidents`, main.go:64-77) -/

/-- JSON insignificant whitespace. -/
def isWsChar (c : Char) : Bool :=
  c == ' ' || c == '\n' || c == '\t' || c == '\r'

/-- Drop leading whitespace. -/
def skipWs : List Char → List Char
  | [] => []
  | c :: rest => if isWsChar c then skipWs rest else c :: rest

/-- Numeric value of a (pure-digit) character list, most significant first. -/
def charsToNat (l : List Char) : Nat :=
  l.foldl (fun acc c => acc * 10 + (c.toNat - 48)) 0

/-- Integer value of a stringified map key (`strconv.ParseInt` on the digits
inside the quotes, restricted to the optional-minus decimal forms that the
program's own encoder emits). -/
def parseIntKey (s : List Char) : Option Int :=
  match s with
  | [] => none
  | c :: rest =>
      if c == '-' then
        if rest.isEmpty then none
        else if rest.all Char.isDigit then some (-(charsToNat rest : Int)) else none
      else if (c :: rest).all Char.isDigit then some (charsToNat (c :: rest) : Int) else none

/-- Consume the characters of an object key up to (and including) the
closing quote; returns the key characters and the remainder. -/
def parseKeyChars : List Char → Option (List Char × List Char)
  | [] => none
  | c :: rest =>
      if c == '\x22' then some ([], rest)
      else
        match parseKeyChars rest with
        | some (k, r) => some (c :: k, r)
        | none => none

/-- Consume a JSON boolean token. -/
def parseBoolTok : List Char → Option (Bool × List Char)
  | 't' :: 'r' :: 'u' :: 'e' :: r => some (true, r)
  | 'f' :: 'a' :: 'l' :: 's' :: 'e' :: r => some (false, r)
  | _ => none

/-- Parse the entries of a non-empty object body (positioned at the opening
quote of a key), accumulating into `acc` with last-wins semantics as Go's
`json.Unmarshal` does into a map.  Fuel bounds the number of entries. -/
def parseEntriesAux : Nat → NotifiedSet → List Char → Option NotifiedSet
  | 0, _, _ => none
  | fuel + 1, acc, s =>
      match s with
      | [] => none
      | c :: rest =>
          if c == '\x22' then
            match parseKeyChars rest with
            | none => none
            | some (kchars, rest1) =>
                match parseIntKey kchars with
                | none => none
                | some k =>
                    match skipWs rest1 with
                    | [] => none
                    | c2 :: rest2 =>
                        if c2 == ':' then
                          match parseBoolTok (skipWs rest2) with
                          | none => none
                          | some (v, rest3) =>
                              match skipWs rest3 with
                              | [] => none
                              | c3 :: rest4 =>
                                  if c3 == ',' then
                                    parseEntriesAux fuel (sentSet acc k v) (skipWs rest4)
                                  else if c3 == '\x7d' then
                                    if (skipWs rest4).isEmpty then some (sentSet acc k v)
                                    else none
                                  else none
                        else none
          else none

/-- Decode the object body after the opening brace: either an immediately
closing brace (empty object) or an entry list. -/
def decodeBody (s : List Char) : Option NotifiedSet :=
  match s with
  | [] => none
  | c2 :: rest2 =>
      if c2 == '\x7d' then (if (skipWs rest2).isEmpty then some [] else none)
      else parseEntriesAux ((c2 :: rest2).length + 1) [] (c2 :: rest2)

/-- Decode a serialized notified-set object: an opening brace followed by
the object body. -/
def decodeTop (s : List Char) : Option NotifiedSet :=
  match s with
  | [] => none
  | c :: rest => if c == '\x7b' then decodeBody (skipWs rest) else none

/-- Decode the file content of a serialized notified set. -/
def decodeSentIDs (s : String) : Option NotifiedSet :=
  decodeTop (skipWs s.toList)

/-- `loadSentIncidents` (main.go:64-77): a missing file or empty content is
the empty mapping (no error); otherwise the content must decode. -/
def loadSentIncidents (file : Option String) : Except String NotifiedSet :=
  match file with
  | none => .ok []
  | some data =>
      if data.length == 0 then .ok []
      else
        match decodeSentIDs data with
        | some m => .ok m
        | none => .error "unmarshal error"

deriving instance DecidableEq for Except

/-! ## Incident store (the `ncdot_incidents` table) -/

/-- The table, as a list of rows (the `id` column is its primary key). -/
abbrev Store := List StoredIncident

/-- Row lookup by primary key. -/
def storeFind (s : Store) (k : Int) : Option StoredIncident :=
  s.find? (fun r => r.id == k)

/-- The row inserted by the VALUES clause of `upsertIncident`
(main.go:167-170): every column from the incident, `status = 'active'`,
`cleared_time = NULL`. -/
def insertRow (inc : Incident) : StoredIncident :=
  { id := inc.id, latitude := inc.latitude, longitude := inc.longitude
    commonName := inc.commonName, reason := inc.reason, condition := inc.condition
    incidentType := inc.incidentType, severity := inc.severity
    direction := inc.direction, location := inc.location, countyId := inc.countyId
    countyName := inc.countyName, city := inc.city, startTime := inc.startTime
    endTime := inc.endTime, lastUpdate := inc.lastUpdate, road := inc.road
    routeId := inc.routeId, lanesClosed := inc.lanesClosed
    lanesTotal := inc.lanesTotal, detour := inc.detour
    crossStreetPfx := inc.crossStreetPfx, crossStreetNumber := inc.crossStreetNumber
    crossStreetSfx := inc.crossStreetSfx
    crossStreetCommonName := inc.crossStreetCommonName, event := inc.event
    createdFromConcurrent := inc.createdFromConcurrent
    movableConstruction := inc.movableConstruction
    workZoneSpeedLimit := inc.workZoneSpeedLimit
    status := .active, clearedTime := none }

/-- The ON CONFLICT (id) DO UPDATE SET clause of `upsertIncident`
(main.go:171-183): refresh exactly latitude, longitude, reason, condition,
incident_type, severity, end_time, last_update, lanes_closed, detour, and
force `status = 'active'`, `cleared_time = NULL`; every other column keeps
its stored value. -/
def conflictUpdate (old : StoredIncident) (inc : Incident) : StoredIncident :=
  { old with
    latitude := inc.latitude, longitude := inc.longitude, reason := inc.reason
    condition := inc.condition, incidentType := inc.incidentType
    severity := inc.severity, endTime := inc.endTime, lastUpdate := inc.lastUpdate
    lanesClosed := inc.lanesClosed, detour := inc.detour
    status := .active, clearedTime := none }

/-- `upsertIncident` (main.go:158-195) as a store transformation:
insert-or-update keyed by `id`. -/
def upsertIncident (s : Store) (inc : Incident) : Store :=
  if s.any (fun r => r.id == inc.id) then
    s.map (fun r => if r.id == inc.id then conflictUpdate r inc else r)
  else
    s ++ [insertRow inc]

/-- The UPDATE of `clearOldCrashes` (main.go:225-228): set
`status = 'cleared'`, `cleared_time = NOW()` on the row keyed `k`.
`NOW()` is the run's clock value `now`. -/
def markCleared (s : Store) (k : Int) (now : Int) : Store :=
  s.map (fun r => if r.id == k then { r with status := .cleared, clearedTime := some now } else r)

/-- The SELECT of `clearOldCrashes` (main.go:199): the minimal projection
of every row with `status = 'active'` and `incident_type = 'Vehicle Crash'`
(row scans are assumed to succeed). -/
def queryActiveCrashes (s : Store) : List ClearedIncident :=
  (s.filter (fun r => r.status == Status.active && r.incidentType == "Vehicle Crash")).map
    (fun r => { id := r.id, road := r.road, location := r.location, city := r.city })

/-! ## The run -/

/-- Outcome of the feed fetch + body read + JSON decode (main.go:276-290).
The three failure modes each hit a `log.Fatalf`; on success the decoded
incident list is the snapshot (the JSON byte-level decoding of incident
records is a library boundary, abstracted here). -/
inductive FeedOutcome where
  | fetchErr
  | readErr
  | decodeErr
  | ok (incidents : List Incident)
deriving DecidableEq, Repr

/-- Externally visible calls of one run, in program order:
an attempted store upsert (main.go:309, made for every filtered record,
whether or not the Exec then errors), an attempted new-incident webhook
post with its formatted time (main.go:333; `sendToDiscord` swallows its
own failures, so the attempt is the observable), and an attempted cleared
webhook post (main.go:233). -/
inductive Event where
  | upsertCall (inc : Incident)
  | newNotification (inc : Incident) (formattedTime : String)
  | clearedNotification (c : ClearedIncident)
deriving DecidableEq, Repr

/-- Success/failure of the fallible external operations of one run, plus
the time-library boundary.  Per-identifier functions model per-record
failures (the corresponding Go call sites are in parentheses):
`dbPingOk` (db.Ping, main.go:260), `upsertOk` (the upsert Exec,
main.go:185), `queryActiveOk` (the active-crash query, main.go:199),
`clearOk` (the cleared UPDATE Exec, main.go:225), `tzOk`
(time.LoadLocation "America/New_York", main.go:318, keyed by the record
being processed), `saveOk` (os.WriteFile, main.go:85), `parseTime`
(time.Parse time.RFC3339, main.go:324, as an abstract instant), and
`formatEastern` (conversion to America/New_York plus Format,
main.go:329-330). -/
structure Env where
  dbPingOk : Bool
  upsertOk : Int → Bool
  queryActiveOk : Bool
  clearOk : Int → Bool
  tzOk : Int → Bool
  saveOk : Bool
  parseTime : String → Option Int
  formatEastern : Int → String

/-- The displayed start time (main.go:324-331): the parsed instant
formatted in Eastern time, or the raw feed string when parsing fails. -/
def displayTime (env : Env) (s : String) : String :=
  match env.parseTime s with
  | some t => env.formatEastern t
  | none => s

/-- State after the per-crash loop. -/
structure LoopOut where
  store : Store
  sent : NotifiedSet
  events : List Event
deriving Repr

/-- Prepend events emitted by one loop iteration. -/
def LoopOut.withEvents (pre : List Event) (out : LoopOut) : LoopOut :=
  { store := out.store, sent := out.sent, events := pre ++ out.events }

/-- The store after one attempted upsert (main.go:309-311): a failed Exec
is logged and changes nothing. -/
def upsertStep (env : Env) (store : Store) (c : Incident) : Store :=
  if env.upsertOk c.id then upsertIncident store c else store

/-- The per-crash loop of `main` (main.go:307-336): for each filtered
record, attempt the upsert (a failed Exec is logged and changes nothing);
then, if the record's id is not yet in `sentIDs`: a failed
time.LoadLocation is logged and skips the rest of the iteration
(`continue`), otherwise the notification is posted with the formatted (or
raw) start time and the id is marked sent. -/
def runLoop (env : Env) : List Incident → Store → NotifiedSet → LoopOut
  | [], store, sent => { store := store, sent := sent, events := [] }
  | c :: rest, store, sent =>
      if sentMem sent c.id then
        LoopOut.withEvents [Event.upsertCall c] (runLoop env rest (upsertStep env store c) sent)
      else if env.tzOk c.id then
        LoopOut.withEvents
          [Event.upsertCall c, Event.newNotification c (displayTime env c.startTime)]
          (runLoop env rest (upsertStep env store c) (sentSet sent c.id true))
      else
        LoopOut.withEvents [Event.upsertCall c] (runLoop env rest (upsertStep env store c) sent)

/-- The clearing loop of `clearOldCrashes` (main.go:224-235): for each
crash to clear, attempt the UPDATE; on failure only log; on success the
row is cleared and the cleared notification is posted. -/
def clearLoop (env : Env) (now : Int) : List ClearedIncident → Store → Store × List Event
  | [], store => (store, [])
  | c :: rest, store =>
      if env.clearOk c.id then
        ((clearLoop env now rest (markCleared store c.id now)).1,
         Event.clearedNotification c :: (clearLoop env now rest (markCleared store c.id now)).2)
      else
        clearLoop env now rest store

/-- `clearOldCrashes` (main.go:198-241): query the active Vehicle Crash
rows (a failed query returns an error, which `main` only logs), keep those
whose id is absent from the current snapshot's id set, and clear each. -/
def clearPass (env : Env) (now : Int) (store : Store) (currentIDs : Int → Bool) :
    Store × List Event :=
  if env.queryActiveOk then
    clearLoop env now ((queryActiveCrashes store).filter (fun c => !(currentIDs c.id))) store
  else
    (store, [])

/-- The category filter of `main` (main.go:293-298). -/
def filterCrashes (l : List Incident) : List Incident :=
  l.filter (fun i => i.incidentType == "Vehicle Crash")

/-- Membership in `currentCrashIDs` (main.go:301-304). -/
def feedHasId (l : List Incident) (k : Int) : Bool :=
  l.any (fun c => c.id == k)

/-- Result of one process run: `fatal` is a `log.Fatalf` exit (non-zero
status) carrying the store and ledger file as the process leaves them;
`completed` carries the final store, final ledger file, event trace, and
final in-memory notified set. -/
inductive RunResult where
  | fatal (store : Store) (file : Option String)
  | completed (store : Store) (file : Option String) (events : List Event) (sent : NotifiedSet)
deriving DecidableEq, Repr

/-- Event trace of a run (empty for a fatal exit: `log.Fatalf` happens
before any webhook or store call in every fatal path). -/
def RunResult.events : RunResult → List Event
  | .fatal _ _ => []
  | .completed _ _ evs _ => evs

/-- The store as the process leaves it. -/
def RunResult.storeAfter : RunResult → Store
  | .fatal s _ => s
  | .completed s _ _ _ => s

/-- The ledger file as the process leaves it. -/
def RunResult.fileAfter : RunResult → Option String
  | .fatal _ f => f
  | .completed _ f _ _ => f

/-- The final in-memory notified set of a completed run (empty for a
fatal exit, which never touches it). -/
def RunResult.sentAfter : RunResult → NotifiedSet
  | .fatal _ _ => []
  | .completed _ _ _ sn => sn

/-- One run of `main` (main.go:243-349) after .env loading: ping the
database (fatal on failure), load the sent-incident ledger (fatal on a
decode failure), fetch/read/decode the feed (each fatal on failure),
filter to Vehicle Crash records, run the per-crash loop, run the clear
pass, and save the ledger (a failed WriteFile is logged and leaves the
file unchanged). -/
def runMain (env : Env) (now : Int) (feed : FeedOutcome) (file : Option String)
    (store : Store) : RunResult :=
  if env.dbPingOk then
    match loadSentIncidents file with
    | .error _ => .fatal store file
    | .ok sentIDs =>
        match feed with
        | .ok allIncidents =>
            .completed
              (clearPass env now (runLoop env (filterCrashes allIncidents) store sentIDs).store
                (feedHasId (filterCrashes allIncidents))).1
              (if env.saveOk then
                some (saveSentIncidents
                  (runLoop env (filterCrashes allIncidents) store sentIDs).sent)
              else file)
              ((runLoop env (filterCrashes allIncidents) store sentIDs).events ++
                (clearPass env now (runLoop env (filterCrashes allIncidents) store sentIDs).store
                  (feedHasId (filterCrashes allIncidents))).2)
              (runLoop env (filterCrashes allIncidents) store sentIDs).sent
        | _ => .fatal store file
  else .fatal store file

/-- Configuration of one run in a multi-run sequence: its environment,
its clock, and the feed snapshot it sees. -/
structure RunCfg where
  env : Env
  now : Int
  feed : FeedOutcome

/-- Consecutive runs (the host-level timer re-invoking the process): each
run receives the ledger file and store left by the previous one.  Returns
the final ledger file, final store, and the per-run event traces. -/
def runChain : List RunCfg → Option String → Store → Option String × Store × List (List Event)
  | [], file, store => (file, store, [])
  | c :: rest, file, store =>
      match runMain c.env c.now c.feed file store with
      | .fatal s f =>
          ((runChain rest f s).1, (runChain rest f s).2.1, [] :: (runChain rest f s).2.2)
      | .completed s f evs _ =>
          ((runChain rest f s).1, (runChain rest f s).2.1, evs :: (runChain rest f s).2.2)

/-! ## Event observations -/

/-- Is this event a new-incident notification for identifier `x`? -/
def Event.isNewFor (x : Int) : Event → Bool
  | .newNotification c _ => c.id == x
  | _ => false

/-- Is this event a cleared notification for identifier `x`? -/
def Event.isClearedFor (x : Int) : Event → Bool
  | .clearedNotification c => c.id == x
  | _ => false

/-- Is this event an upsert call for identifier `x`? -/
def Event.isUpsertFor (x : Int) : Event → Bool
  | .upsertCall c => c.id == x
  | _ => false

/-- Is this event an upsert call (for any record)? -/
def Event.isUpsert : Event → Bool
  | .upsertCall _ => true
  | _ => false

/-- Is this event a new-incident notification (for any record)? -/
def Event.isNewNotif : Event → Bool
  | .newNotification _ _ => true
  | _ => false

/-- Is this event a cleared notification (for any record)? -/
def Event.isClearedNotif : Event → Bool
  | .clearedNotification _ => true
  | _ => false

/-- Number of new-incident notifications for identifier `x` in a trace. -/
def countNewFor (x : Int) (evs : List Event) : Nat :=
  evs.countP (fun e => e.isNewFor x)

/-- Number of cleared notifications for identifier `x` in a trace. -/
def countClearedFor (x : Int) (evs : List Event) : Nat :=
  evs.countP (fun e => e.isClearedFor x)

/-- Number of upsert calls for identifier `x` in a trace. -/
def countUpsertFor (x : Int) (evs : List Event) : Nat :=
  evs.countP (fun e => e.isUpsertFor x)

/-- Does the trace satisfy "every upsert call precedes every new-incident
notification" (no upsert call occurs after a new-incident notification)?
This is the order a strict upsert-pass-then-notify-pass schedule would
produce. -/
def noUpsertAfterNew : List Event → Bool
  | [] => true
  | e :: rest =>
      (if e.isNewNotif then rest.all (fun x => !(x.isUpsert)) else true) && noUpsertAfterNew rest

/-- Does the trace satisfy "once a cleared notification occurs, no upsert
call or new-incident notification follows" (the clear pass comes last)? -/
def clearComesLast : List Event → Bool
  | [] => true
  | e :: rest =>
      (if e.isClearedNotif then rest.all (fun x => !(x.isUpsert || x.isNewNotif)) else true) &&
        clearComesLast rest

/-- Does every new-incident notification come after an upsert call for the
same record?  `seen` accumulates the records already upserted. -/
def newAfterOwnUpsert (seen : List Int) : List Event → Bool
  | [] => true
  | .upsertCall c :: rest => newAfterOwnUpsert (c.id :: seen) rest
  | .newNotification c _ :: rest => seen.contains c.id && newAfterOwnUpsert seen rest
  | .clearedNotification _ :: rest => newAfterOwnUpsert seen rest

/-! ## Concrete builders for tests and witnesses -/

/-- An incident with the given id and category and default values in every
other field. -/
def mkIncident (i : Int) (ty : String) : Incident :=
  { id := i, latitude := 0, longitude := 0, commonName := "", reason := ""
    condition := "", incidentType := ty, severity := 0, direction := ""
    location := "", countyId := 0, countyName := "", city := "", startTime := ""
    endTime := "", lastUpdate := "", road := "", routeId := 0, lanesClosed := 0
    lanesTotal := 0, detour := "", crossStreetPfx := "", crossStreetNumber := 0
    crossStreetSfx := "", crossStreetCommonName := "", event := ""
    createdFromConcurrent := false, movableConstruction := ""
    workZoneSpeedLimit := 0 }

/-- A stored row with the given id, category, identity fields and status. -/
def mkStored (i : Int) (ty road loc city : String) (st : Status) : StoredIncident :=
  { insertRow (mkIncident i ty) with
    road := road, location := loc, city := city, status := st
    clearedTime := if st = Status.cleared then some 0 else none }

/-- An environment in which every external operation succeeds and no start
time parses (notifications fall back to the raw string). -/
def envOkAll : Env :=
  { dbPingOk := true, upsertOk := fun _ => true, queryActiveOk := true
    clearOk := fun _ => true, tzOk := fun _ => true, saveOk := true
    parseTime := fun _ => none, formatEastern := fun _ => "" }

example : loadSentIncidents none = .ok [] := by decide
example : loadSentIncidents (some "") = .ok [] := by decide
example : loadSentIncidents (some (saveSentIncidents [])) = .ok [] := by decide
example :
    loadSentIncidents (some (saveSentIncidents [(3, true), (9, true)])) =
      .ok [(3, true), (9, true)] := by decide
example :
    loadSentIncidents (some (saveSentIncidents [(-2, false), (10, true)])) =
      .ok [(-2, false), (10, true)] := by decide

/-! ## List toolkit -/

/-- Mapping with a function that fixes the rows a predicate selects and
never changes a row's predicate value leaves the filtered sublist alone. -/
theorem filter_map_fix {α : Type} (p : α → Bool) (g : α → α)
    (hfix : ∀ a, p a = true → g a = a) (hpres : ∀ a, p (g a) = p a) (l : List α) :
    (l.map g).filter p = l.filter p := by
  induction l with
  | nil => rfl
  | cons a t ih =>
      by_cases h : p a = true
      · simp [List.filter, hpres a, h, hfix a h, ih]
      · simp only [Bool.not_eq_true] at h
        simp [List.filter, hpres a, h, ih]

/-- Mapping with a function that never changes a row's predicate value
commutes with filtering. -/
theorem filter_map_comm {α : Type} (p : α → Bool) (g : α → α)
    (hpres : ∀ a, p (g a) = p a) (l : List α) :
    (l.map g).filter p = (l.filter p).map g := by
  induction l with
  | nil => rfl
  | cons a t ih =>
      by_cases h : p a = true
      · simp [List.filter, hpres a, h, ih]
      · simp only [Bool.not_eq_true] at h
        simp [List.filter, hpres a, h, ih]

/-- `find?` through a map that never changes a row's predicate value. -/
theorem find?_map_pres {α : Type} (p : α → Bool) (g : α → α)
    (hpres : ∀ a, p (g a) = p a) (l : List α) :
    (l.map g).find? p = (l.find? p).map g := by
  induction l with
  | nil => rfl
  | cons a t ih =>
      by_cases h : p a = true
      · simp [List.find?, hpres a, h]
      · simp only [Bool.not_eq_true] at h
        simp [List.find?, hpres a, h, ih]

/-- In a list with pairwise-distinct keys, filtering by the key of a member
yields exactly that member. -/
theorem filter_key_single {α : Type} (key : α → Int) {l : List α} {r : α}
    (hmem : r ∈ l) (hnodup : (l.map key).Nodup) :
    l.filter (fun a => key a == key r) = [r] := by
  induction l with
  | nil => cases hmem
  | cons a t ih =>
      simp only [List.map_cons, List.nodup_cons] at hnodup
      rcases List.mem_cons.mp hmem with rfl | hmem'
      · have ht : t.filter (fun a => key a == key r) = [] := by
          rw [List.filter_eq_nil_iff]
          intro b hb
          simp only [beq_iff_eq]
          intro hkey
          exact hnodup.1 (hkey ▸ List.mem_map_of_mem key hb)
        simp [List.filter, ht]
      · have hne : (key a == key r) = false := by
          simp only [beq_eq_false_iff_ne, ne_eq]
          intro hkey
          exact hnodup.1 (hkey ▸ List.mem_map_of_mem key hmem')
        simp [List.filter, hne, ih hmem' hnodup.2]

/-! ## Notified-set lemmas -/

theorem sentMem_nil (k : Int) : sentMem [] k = false := rfl

/-- Setting a key makes `sentMem` at that key return the value. -/
theorem sentMem_set_self (s : NotifiedSet) (k : Int) (v : Bool) :
    sentMem (sentSet s k v) k = v := by
  unfold sentSet sentMem
  by_cases h : s.any (fun p => p.1 == k) = true
  · rw [if_pos h]
    have hpres : ∀ a : Int × Bool,
        ((if a.1 == k then (k, v) else a).1 == k) = (a.1 == k) := by
      intro a
      by_cases ha : (a.1 == k) = true
      · simp [ha]
      · simp [ha]
    rw [find?_map_pres (fun (p : Int × Bool) => p.1 == k)
      (fun (p : Int × Bool) => if p.1 == k then (k, v) else p) hpres s]
    rcases ha : s.find? (fun (p : Int × Bool) => p.1 == k) with _ | a
    · rw [List.find?_eq_none] at ha
      rcases List.any_eq_true.mp h with ⟨x, hx, hpx⟩
      exact absurd hpx (ha x hx)
    · have h2 : (a.1 == k) = true := by simpa using List.find?_some ha
      simp [beq_iff_eq.mp h2]
  · rw [if_neg h]
    rw [List.find?_append]
    have hnone : s.find? (fun (p : Int × Bool) => p.1 == k) = none := by
      rw [List.find?_eq_none]
      intro x hx hpx
      exact h (List.any_eq_true.mpr ⟨x, hx, hpx⟩)
    simp [hnone, List.find?]

/-- Setting one key leaves `sentMem` at every other key unchanged. -/
theorem sentMem_set_ne (s : NotifiedSet) {k x : Int} (v : Bool) (hne : k ≠ x) :
    sentMem (sentSet s k v) x = sentMem s x := by
  unfold sentSet sentMem
  by_cases h : s.any (fun p => p.1 == k) = true
  · rw [if_pos h]
    have hpres : ∀ a : Int × Bool,
        ((if a.1 == k then (k, v) else a).1 == x) = (a.1 == x) := by
      intro a
      by_cases ha : (a.1 == k) = true
      · have hak : a.1 = k := beq_iff_eq.mp ha
        have h1 : ((k, v).1 == x) = false := beq_eq_false_iff_ne.mpr hne
        have h2 : (a.1 == x) = false := by
          rw [hak]
          exact beq_eq_false_iff_ne.mpr hne
        simp [ha, h1, h2]
      · simp [ha]
    rw [find?_map_pres (fun (p : Int × Bool) => p.1 == x)
      (fun (p : Int × Bool) => if p.1 == k then (k, v) else p) hpres s]
    rcases ha : s.find? (fun (p : Int × Bool) => p.1 == x) with _ | a
    · rfl
    · have hax : (a.1 == x) = true := by simpa using List.find?_some ha
      have hak : a.1 ≠ k := by
        intro hh
        exact hne (hh ▸ beq_iff_eq.mp hax)
      simp [hak]
  · rw [if_neg h]
    rw [List.find?_append]
    rcases ha : s.find? (fun (p : Int × Bool) => p.1 == x) with _ | a
    · have hkx : ((k, v).1 == x) = false := beq_eq_false_iff_ne.mpr hne
      simp [ha, List.find?, hkx]
    · simp [ha]

/-- Setting a key preserves key distinctness. -/
theorem sentSet_keys_nodup {s : NotifiedSet} (k : Int) (v : Bool)
    (h : (sentKeys s).Nodup) : (sentKeys (sentSet s k v)).Nodup := by
  unfold sentSet
  by_cases hany : s.any (fun p => p.1 == k) = true
  · rw [if_pos hany]
    have : sentKeys (s.map (fun p => if p.1 == k then (k, v) else p)) = sentKeys s := by
      unfold sentKeys
      rw [List.map_map]
      apply List.map_congr_left
      intro a _
      by_cases ha : a.1 = k
      · simp [ha]
      · simp [ha]
    rwa [this]
  · simp only [Bool.not_eq_true] at hany
    rw [if_neg (by simp [hany])]
    unfold sentKeys
    rw [List.map_append]
    rw [List.nodup_append]
    refine ⟨h, by simp, ?_⟩
    intro a ha hb
    simp only [List.map_cons, List.map_nil, List.mem_singleton] at hb
    subst hb
    rcases List.mem_map.mp ha with ⟨p, hp, hpk⟩
    have := List.any_eq_false.mp hany p hp
    simp [hpk] at this

/-! ## Digit and numeral lemmas -/

theorem digitChar_isDigit : ∀ d, d < 10 → (digitChar d).isDigit = true := by decide

theorem digitChar_toNat : ∀ d, d < 10 → (digitChar d).toNat = 48 + d := by decide

theorem isDigit_ne_minus (c : Char) (h : c.isDigit = true) : (c == '-') = false := by
  rw [beq_eq_false_iff_ne]
  intro he
  rw [he] at h
  exact absurd h (by decide)

theorem isDigit_ne_quote (c : Char) (h : c.isDigit = true) : (c == '\x22') = false := by
  rw [beq_eq_false_iff_ne]
  intro he
  rw [he] at h
  exact absurd h (by decide)

theorem charsToNat_append_singleton (a : List Char) (c : Char) :
    charsToNat (a ++ [c]) = charsToNat a * 10 + (c.toNat - 48) := by
  unfold charsToNat
  rw [List.foldl_append]
  rfl

theorem charsToNat_single (c : Char) : charsToNat [c] = c.toNat - 48 := by
  unfold charsToNat
  simp [List.foldl]

theorem natToDigitsAux_zero (fuel : Nat) (acc : List Char) :
    natToDigitsAux fuel 0 acc = acc := by
  cases fuel <;> rfl

theorem natToDigitsAux_spec : ∀ n : Nat, 0 < n → ∀ fuel acc, n ≤ fuel →
    ∃ ds, natToDigitsAux fuel n acc = ds ++ acc ∧ ds ≠ [] ∧
      (∀ c ∈ ds, c.isDigit = true) ∧ charsToNat ds = n := by
  intro n
  induction n using Nat.strong_induction_on with
  | _ n ih =>
    intro hn fuel acc hfuel
    obtain ⟨m, rfl⟩ : ∃ m, n = m + 1 := ⟨n - 1, by omega⟩
    obtain ⟨f, rfl⟩ : ∃ f, fuel = f + 1 := ⟨fuel - 1, by omega⟩
    rw [show natToDigitsAux (f + 1) (m + 1) acc =
        natToDigitsAux f ((m + 1) / 10) (digitChar ((m + 1) % 10) :: acc) from rfl]
    have hmod : (m + 1) % 10 < 10 := Nat.mod_lt _ (by omega)
    by_cases hdiv : (m + 1) / 10 = 0
    · rw [hdiv, natToDigitsAux_zero]
      refine ⟨[digitChar ((m + 1) % 10)], rfl, by simp, ?_, ?_⟩
      · intro c hc
        rw [List.mem_singleton] at hc
        rw [hc]
        exact digitChar_isDigit _ hmod
      · rw [charsToNat_single, digitChar_toNat _ hmod]
        have := Nat.div_add_mod (m + 1) 10
        omega
    · have hdivlt : (m + 1) / 10 < m + 1 := Nat.div_lt_self (by omega) (by omega)
      have hdivpos : 0 < (m + 1) / 10 := by omega
      have hdivfuel : (m + 1) / 10 ≤ f := by omega
      obtain ⟨ds, hds, hne, hdig, hval⟩ :=
        ih ((m + 1) / 10) hdivlt hdivpos f (digitChar ((m + 1) % 10) :: acc) hdivfuel
      refine ⟨ds ++ [digitChar ((m + 1) % 10)], ?_, by simp, ?_, ?_⟩
      · rw [hds, List.append_assoc, List.singleton_append]
      · intro c hc
        rcases List.mem_append.mp hc with h1 | h1
        · exact hdig c h1
        · rw [List.mem_singleton] at h1
          rw [h1]
          exact digitChar_isDigit _ hmod
      · rw [charsToNat_append_singleton, hval, digitChar_toNat _ hmod]
        have := Nat.div_add_mod (m + 1) 10
        omega

theorem natToDigits_spec (n : Nat) :
    natToDigits n ≠ [] ∧ (∀ c ∈ natToDigits n, c.isDigit = true) ∧
      charsToNat (natToDigits n) = n := by
  by_cases h : n = 0
  · subst h
    refine ⟨by decide, ?_, by decide⟩
    intro c hc
    rw [show natToDigits 0 = ['0'] from rfl, List.mem_singleton] at hc
    rw [hc]
    decide
  · rw [show natToDigits n = if n == 0 then ['0'] else natToDigitsAux n n [] from rfl]
    rw [if_neg (by simpa using h)]
    obtain ⟨ds, hds, hne, hdig, hval⟩ :=
      natToDigitsAux_spec n (by omega) n [] (le_refl n)
    rw [hds, List.append_nil]
    exact ⟨hne, hdig, hval⟩

theorem parseIntKey_intToChars (i : Int) : parseIntKey (intToChars i) = some i := by
  cases i with
  | ofNat n =>
      obtain ⟨hne, hdig, hval⟩ := natToDigits_spec n
      rcases h : natToDigits n with _ | ⟨c, cs⟩
      · exact absurd h hne
      · rw [show intToChars (Int.ofNat n) = natToDigits n from rfl, h]
        have hc : c.isDigit = true := hdig c (by rw [h]; exact List.mem_cons_self c cs)
        have hall : (c :: cs).all Char.isDigit = true := by
          rw [List.all_eq_true]
          intro x hx
          exact hdig x (by rw [h]; exact hx)
        simp only [parseIntKey, isDigit_ne_minus c hc, Bool.false_eq_true, if_false, hall,
          if_true]
        rw [← h, hval]
        rfl
  | negSucc n =>
      obtain ⟨hne, hdig, hval⟩ := natToDigits_spec (n + 1)
      rw [show intToChars (Int.negSucc n) = '-' :: natToDigits (n + 1) from rfl]
      have hempty : (natToDigits (n + 1)).isEmpty = false := by
        rcases h : natToDigits (n + 1) with _ | _
        · exact absurd h hne
        · rfl
      have hall : (natToDigits (n + 1)).all Char.isDigit = true := by
        rw [List.all_eq_true]
        intro x hx
        exact hdig x hx
      simp only [parseIntKey, beq_self_eq_true, if_true, hempty, Bool.false_eq_true, if_false,
        hall, hval]
      rw [Int.negSucc_eq]
      simp

theorem intToChars_no_quote (i : Int) : ∀ c ∈ intToChars i, (c == '\x22') = false := by
  cases i with
  | ofNat n =>
      intro c hc
      exact isDigit_ne_quote c ((natToDigits_spec n).2.1 c hc)
  | negSucc n =>
      intro c hc
      rcases List.mem_cons.mp hc with rfl | hc'
      · decide
      · exact isDigit_ne_quote c ((natToDigits_spec (n + 1)).2.1 c hc')

/-! ## Whitespace and token lemmas -/

theorem skipWs_cons_of_ws {c : Char} (h : isWsChar c = true) (l : List Char) :
    skipWs (c :: l) = skipWs l := by
  simp [skipWs, h]

theorem skipWs_cons_of_not {c : Char} (h : isWsChar c = false) (l : List Char) :
    skipWs (c :: l) = c :: l := by
  simp [skipWs, h]

theorem skipWs_length_le (l : List Char) : (skipWs l).length ≤ l.length := by
  induction l with
  | nil => exact le_refl 0
  | cons c rest ih =>
      by_cases h : isWsChar c = true
      · rw [skipWs_cons_of_ws h]
        exact Nat.le_trans ih (by simp)
      · rw [skipWs_cons_of_not (by simpa using h)]

theorem parseKeyChars_key (k rest : List Char) (h : ∀ c ∈ k, (c == '\x22') = false) :
    parseKeyChars (k ++ '\x22' :: rest) = some (k, rest) := by
  induction k with
  | nil => simp [parseKeyChars]
  | cons c cs ih =>
      have hc := h c (List.mem_cons_self c cs)
      have ih' := ih (fun x hx => h x (List.mem_cons_of_mem c hx))
      simp [parseKeyChars, hc, ih']

theorem parseBoolTok_bool (v : Bool) (X : List Char) :
    parseBoolTok (boolChars v ++ X) = some (v, X) := by
  cases v <;> rfl

theorem skipWs_boolChars (v : Bool) (X : List Char) :
    skipWs (boolChars v ++ X) = boolChars v ++ X := by
  cases v
  · exact skipWs_cons_of_not (by decide) _
  · exact skipWs_cons_of_not (by decide) _

theorem skipWs_entry (p : Int × Bool) (X : List Char) :
    skipWs (encodeEntryChars p ++ X) =
      '\x22' :: (intToChars p.1 ++ '\x22' :: ':' :: ' ' :: (boolChars p.2 ++ X)) := by
  show skipWs (' ' :: ' ' :: '\x22' ::
      ((intToChars p.1 ++ '\x22' :: ':' :: ' ' :: boolChars p.2) ++ X)) = _
  rw [skipWs_cons_of_ws (by decide), skipWs_cons_of_ws (by decide),
    skipWs_cons_of_not (by decide)]
  simp [List.append_assoc]

/-- One parsing step consumes one serialized entry. -/
theorem parseEntriesAux_entry (f : Nat) (acc : NotifiedSet) (p : Int × Bool) (X : List Char) :
    parseEntriesAux (f + 1) acc
        ('\x22' :: (intToChars p.1 ++ '\x22' :: ':' :: ' ' :: (boolChars p.2 ++ X))) =
      (match skipWs X with
       | [] => none
       | c3 :: rest4 =>
           if c3 == ',' then parseEntriesAux f (sentSet acc p.1 p.2) (skipWs rest4)
           else if c3 == '\x7d' then
             if (skipWs rest4).isEmpty then some (sentSet acc p.1 p.2) else none
           else none) := by
  rw [show parseEntriesAux (f + 1) acc
      ('\x22' :: (intToChars p.1 ++ '\x22' :: ':' :: ' ' :: (boolChars p.2 ++ X))) =
      (if ('\x22' : Char) == '\x22' then
        match parseKeyChars (intToChars p.1 ++ '\x22' :: ':' :: ' ' :: (boolChars p.2 ++ X)) with
        | none => none
        | some (kchars, rest1) =>
            match parseIntKey kchars with
            | none => none
            | some k =>
                match skipWs rest1 with
                | [] => none
                | c2 :: rest2 =>
                    if c2 == ':' then
                      match parseBoolTok (skipWs rest2) with
                      | none => none
                      | some (v, rest3) =>
                          match skipWs rest3 with
                          | [] => none
                          | c3 :: rest4 =>
                              if c3 == ',' then
                                parseEntriesAux f (sentSet acc k v) (skipWs rest4)
                              else if c3 == '\x7d' then
                                if (skipWs rest4).isEmpty then some (sentSet acc k v)
                                else none
                              else none
                    else none
      else none) from rfl]
  rw [if_pos (by decide)]
  have h1 : skipWs (':' :: ' ' :: (boolChars p.2 ++ X)) = ':' :: ' ' :: (boolChars p.2 ++ X) :=
    skipWs_cons_of_not (by decide) _
  have h2 : skipWs (' ' :: (boolChars p.2 ++ X)) = skipWs (boolChars p.2 ++ X) :=
    skipWs_cons_of_ws (by decide) _
  simp only [parseKeyChars_key _ _ (intToChars_no_quote p.1), parseIntKey_intToChars,
    h1, h2, skipWs_boolChars, parseBoolTok_bool, beq_self_eq_true, if_true]

/-- The entry list of a non-empty set, with an explicit separator tail. -/
theorem encodeEntriesChars_cons (p : Int × Bool) (rest : NotifiedSet) :
    encodeEntriesChars (p :: rest) =
      encodeEntryChars p ++
        (match rest with
         | [] => []
         | _ :: _ => ',' :: '\n' :: encodeEntriesChars rest) := by
  cases rest with
  | nil => simp [encodeEntriesChars]
  | cons q rs => rfl

/-- A serialized entry followed by the closing brace parses to the
accumulated set. -/
theorem parseEntriesAux_entry_last (f : Nat) (acc : NotifiedSet) (p : Int × Bool) :
    parseEntriesAux (f + 1) acc
        ('\x22' :: (intToChars p.1 ++ '\x22' :: ':' :: ' ' :: (boolChars p.2 ++ ['\n', '\x7d']))) =
      some (sentSet acc p.1 p.2) := by
  rw [parseEntriesAux_entry]
  rfl

/-- A serialized entry followed by a comma separator parses and continues
with the next entry. -/
theorem parseEntriesAux_entry_comma (f : Nat) (acc : NotifiedSet) (p : Int × Bool)
    (Y : List Char) :
    parseEntriesAux (f + 1) acc
        ('\x22' :: (intToChars p.1 ++ '\x22' :: ':' :: ' ' ::
          (boolChars p.2 ++ (',' :: '\n' :: Y)))) =
      parseEntriesAux f (sentSet acc p.1 p.2) (skipWs Y) := by
  rw [parseEntriesAux_entry]
  rw [skipWs_cons_of_not (by decide)]
  rfl

/-- Parsing the serialized entries of a non-empty set accumulates exactly
its entries. -/
theorem parseEntries_round : ∀ (m : NotifiedSet), m ≠ [] → ∀ (acc : NotifiedSet) (fuel : Nat),
    m.length ≤ fuel →
    parseEntriesAux fuel acc (skipWs (encodeEntriesChars m ++ ['\n', '\x7d'])) =
      some (m.foldl (fun a p => sentSet a p.1 p.2) acc) := by
  intro m
  induction m with
  | nil => intro h; exact absurd rfl h
  | cons p rest ih =>
      intro _ acc fuel hfuel
      obtain ⟨f, rfl⟩ : ∃ f, fuel = f + 1 := ⟨fuel - 1, by simp at hfuel; omega⟩
      cases rest with
      | nil =>
          rw [show encodeEntriesChars [p] = encodeEntryChars p from rfl]
          rw [skipWs_entry, parseEntriesAux_entry_last]
          rfl
      | cons q rs =>
          rw [encodeEntriesChars_cons, List.append_assoc, List.cons_append, List.cons_append,
            skipWs_entry, parseEntriesAux_entry_comma]
          rw [ih (by simp) (sentSet acc p.1 p.2) f (by simp at hfuel ⊢; omega)]
          rfl

/-- The parser input for a non-empty entry list is at least one character
per entry. -/
theorem encodeEntries_len_lb : ∀ (m : NotifiedSet) (X : List Char), m ≠ [] →
    m.length ≤ (skipWs (encodeEntriesChars m ++ X)).length := by
  intro m
  induction m with
  | nil => intro X h; exact absurd rfl h
  | cons p rest ih =>
      intro X _
      cases rest with
      | nil =>
          rw [show encodeEntriesChars [p] = encodeEntryChars p from rfl, skipWs_entry]
          simp
      | cons q rs =>
          rw [encodeEntriesChars_cons, List.append_assoc, List.cons_append, List.cons_append,
            skipWs_entry]
          have h1 := ih X (by simp)
          have h2 := skipWs_length_le (encodeEntriesChars (q :: rs) ++ X)
          have h3 := le_trans h1 h2
          simp only [List.length_cons, List.length_append] at h3 ⊢
          omega

/-- Folding `sentSet` over fresh, pairwise-distinct entries appends them. -/
theorem foldl_sentSet_append : ∀ (m acc : NotifiedSet), (sentKeys (acc ++ m)).Nodup →
    m.foldl (fun a p => sentSet a p.1 p.2) acc = acc ++ m := by
  intro m
  induction m with
  | nil => intro acc _; simp
  | cons p rest ih =>
      intro acc hnodup
      have hkeys : sentKeys (acc ++ p :: rest) = sentKeys acc ++ p.1 :: sentKeys rest := by
        simp [sentKeys]
      rw [hkeys, List.nodup_append] at hnodup
      have hkey : ¬ (acc.any (fun q => q.1 == p.1) = true) := by
        intro hany
        rcases List.any_eq_true.mp hany with ⟨q, hq, hqe⟩
        have hq1 : q.1 ∈ sentKeys acc := List.mem_map_of_mem _ hq
        have : q.1 ∈ p.1 :: sentKeys rest := by
          rw [beq_iff_eq.mp hqe]
          exact List.mem_cons_self _ _
        exact hnodup.2.2 hq1 this
      have hstep : sentSet acc p.1 p.2 = acc ++ [p] := by
        unfold sentSet
        rw [if_neg hkey]
      rw [List.foldl_cons, hstep]
      rw [ih (acc ++ [p]) (by
        have : sentKeys ((acc ++ [p]) ++ rest) = sentKeys acc ++ p.1 :: sentKeys rest := by
          simp [sentKeys]
        rw [this, List.nodup_append]
        exact hnodup)]
      simp

/-- The entry parser preserves key distinctness of its accumulator. -/
theorem parseEntriesAux_nodup : ∀ (fuel : Nat) (acc : NotifiedSet) (s : List Char)
    (m : NotifiedSet), (sentKeys acc).Nodup → parseEntriesAux fuel acc s = some m →
    (sentKeys m).Nodup := by
  intro fuel
  induction fuel with
  | zero =>
      intro acc s m _ h
      simp [parseEntriesAux] at h
  | succ f ih =>
      intro acc s m hacc h
      cases s with
      | nil => simp [parseEntriesAux] at h
      | cons c rest =>
          rw [parseEntriesAux] at h
          by_cases hc : (c == '\x22') = true
          · rw [if_pos hc] at h
            rcases hk : parseKeyChars rest with _ | ⟨kchars, rest1⟩ <;> rw [hk] at h <;>
              simp only [] at h
            · simp at h
            · rcases hik : parseIntKey kchars with _ | k <;> rw [hik] at h <;>
                simp only [] at h
              · simp at h
              · rcases hs1 : skipWs rest1 with _ | ⟨c2, rest2⟩ <;> rw [hs1] at h <;>
                  simp only [] at h
                · simp at h
                · by_cases hc2 : (c2 == ':') = true
                  · rw [if_pos hc2] at h
                    rcases hb : parseBoolTok (skipWs rest2) with _ | ⟨v, rest3⟩ <;>
                      rw [hb] at h <;> simp only [] at h
                    · simp at h
                    · rcases hs3 : skipWs rest3 with _ | ⟨c3, rest4⟩ <;> rw [hs3] at h <;>
                        simp only [] at h
                      · simp at h
                      · by_cases hc3 : (c3 == ',') = true
                        · rw [if_pos hc3] at h
                          exact ih (sentSet acc k v) (skipWs rest4) m
                            (sentSet_keys_nodup k v hacc) h
                        · rw [if_neg hc3] at h
                          by_cases hc3' : (c3 == '\x7d') = true
                          · rw [if_pos hc3'] at h
                            by_cases hemp : (skipWs rest4).isEmpty = true
                            · rw [if_pos hemp] at h
                              rw [Option.some_inj] at h
                              rw [← h]
                              exact sentSet_keys_nodup k v hacc
                            · rw [if_neg hemp] at h
                              simp at h
                          · rw [if_neg hc3'] at h
                            simp at h
                  · rw [if_neg hc2] at h
                    simp at h
          · rw [if_neg hc] at h
            simp at h

/-- Any successfully loaded ledger has pairwise-distinct keys. -/
theorem loadSentIncidents_nodup (file : Option String) (m : NotifiedSet)
    (h : loadSentIncidents file = .ok m) : (sentKeys m).Nodup := by
  cases file with
  | none =>
      rw [show loadSentIncidents none = .ok [] from rfl] at h
      rw [Except.ok.injEq] at h
      rw [← h]
      exact List.nodup_nil
  | some data =>
      rw [loadSentIncidents] at h
      by_cases hlen : (data.length == 0) = true
      · rw [if_pos hlen] at h
        rw [Except.ok.injEq] at h
        rw [← h]
        exact List.nodup_nil
      · rw [if_neg hlen] at h
        rcases hd : decodeSentIDs data with _ | m' <;> rw [hd] at h <;> simp only [] at h
        · simp at h
        · rw [Except.ok.injEq] at h
          subst h
          rw [decodeSentIDs] at hd
          rcases hs : skipWs data.toList with _ | ⟨c, rest⟩ <;> rw [hs] at hd
          · simp [decodeTop] at hd
          · rw [decodeTop] at hd
            by_cases hc : (c == '\x7b') = true
            · rw [if_pos hc] at hd
              rcases hs2 : skipWs rest with _ | ⟨c2, rest2⟩ <;> rw [hs2] at hd
              · simp [decodeBody] at hd
              · rw [decodeBody] at hd
                by_cases hc2 : (c2 == '\x7d') = true
                · rw [if_pos hc2] at hd
                  by_cases hemp : (skipWs rest2).isEmpty = true
                  · rw [if_pos hemp, Option.some_inj] at hd
                    rw [← hd]
                    exact List.nodup_nil
                  · rw [if_neg hemp] at hd
                    simp at hd
                · rw [if_neg hc2] at hd
                  exact parseEntriesAux_nodup _ [] _ _ List.nodup_nil hd
            · rw [if_neg hc] at hd
              simp at hd

/-- Decoding the serialized form of a non-empty distinct-keyed set restores
it. -/
theorem decode_save_round (p : Int × Bool) (rest : NotifiedSet)
    (h : (sentKeys (p :: rest)).Nodup) :
    decodeSentIDs (saveSentIncidents (p :: rest)) = some (p :: rest) := by
  have htl : (saveSentIncidents (p :: rest)).toList =
      '\x7b' :: '\n' :: (encodeEntriesChars (p :: rest) ++ ['\n', '\x7d']) := rfl
  rw [decodeSentIDs, htl]
  rw [skipWs_cons_of_not (by decide)]
  rw [decodeTop]
  rw [if_pos (by decide)]
  rw [skipWs_cons_of_ws (by decide)]
  obtain ⟨tl, hform⟩ : ∃ tl, skipWs (encodeEntriesChars (p :: rest) ++ ['\n', '\x7d']) =
      '\x22' :: tl :=
    ⟨_, by rw [encodeEntriesChars_cons, List.append_assoc, skipWs_entry]⟩
  rw [hform]
  rw [decodeBody]
  rw [if_neg (by decide)]
  rw [← hform]
  have hlb : (p :: rest).length ≤
      (skipWs (encodeEntriesChars (p :: rest) ++ ['\n', '\x7d'])).length :=
    encodeEntries_len_lb (p :: rest) ['\n', '\x7d'] (by simp)
  rw [parseEntries_round (p :: rest) (by simp) []
    ((skipWs (encodeEntriesChars (p :: rest) ++ ['\n', '\x7d'])).length + 1)
    (by omega)]
  rw [foldl_sentSet_append (p :: rest) [] (by simpa using h)]
  rfl

/-- Saving and reloading a (distinct-keyed) notified set restores it. -/
theorem load_save_round (m : NotifiedSet) (h : (sentKeys m).Nodup) :
    loadSentIncidents (some (saveSentIncidents m)) = .ok m := by
  cases m with
  | nil => decide
  | cons p rest =>
      rw [loadSentIncidents]
      rw [if_neg (by
        rw [show (saveSentIncidents (p :: rest)).length =
          ('\x7b' :: '\n' :: (encodeEntriesChars (p :: rest) ++ ['\n', '\x7d'])).length from rfl]
        simp)]
      rw [decode_save_round p rest h]

/-! ## Per-crash loop lemmas -/

theorem withEvents_store (pre : List Event) (out : LoopOut) :
    (LoopOut.withEvents pre out).store = out.store := rfl

theorem withEvents_sent (pre : List Event) (out : LoopOut) :
    (LoopOut.withEvents pre out).sent = out.sent := rfl

theorem withEvents_events (pre : List Event) (out : LoopOut) :
    (LoopOut.withEvents pre out).events = pre ++ out.events := rfl

/-- Loop unfolding: the already-notified branch (main.go:314 false). -/
theorem runLoop_cons_skip (env : Env) (c : Incident) (rest : List Incident) (store : Store)
    (sent : NotifiedSet) (hm : sentMem sent c.id = true) :
    runLoop env (c :: rest) store sent =
      LoopOut.withEvents [Event.upsertCall c]
        (runLoop env rest (upsertStep env store c) sent) := by
  rw [runLoop, if_pos hm]

/-- Loop unfolding: the notify branch (main.go:314-334, LoadLocation ok). -/
theorem runLoop_cons_notify (env : Env) (c : Incident) (rest : List Incident) (store : Store)
    (sent : NotifiedSet) (hm : sentMem sent c.id = false) (htz : env.tzOk c.id = true) :
    runLoop env (c :: rest) store sent =
      LoopOut.withEvents
        [Event.upsertCall c, Event.newNotification c (displayTime env c.startTime)]
        (runLoop env rest (upsertStep env store c) (sentSet sent c.id true)) := by
  rw [runLoop, if_neg (by simp [hm]), if_pos htz]

/-- Loop unfolding: the timezone-failure branch (main.go:318-322). -/
theorem runLoop_cons_tzfail (env : Env) (c : Incident) (rest : List Incident) (store : Store)
    (sent : NotifiedSet) (hm : sentMem sent c.id = false) (htz : env.tzOk c.id = false) :
    runLoop env (c :: rest) store sent =
      LoopOut.withEvents [Event.upsertCall c]
        (runLoop env rest (upsertStep env store c) sent) := by
  rw [runLoop, if_neg (by simp [hm]), if_neg (by simp [htz])]

/-- An identifier already marked sent is never notified again by the loop,
and stays marked. -/
theorem runLoop_skip_of_mem (env : Env) (x : Int) : ∀ (crashes : List Incident) (store : Store)
    (sent : NotifiedSet), sentMem sent x = true →
    countNewFor x (runLoop env crashes store sent).events = 0 ∧
      sentMem (runLoop env crashes store sent).sent x = true := by
  intro crashes
  induction crashes with
  | nil => intro store sent hx; exact ⟨rfl, hx⟩
  | cons c rest ih =>
      intro store sent hx
      by_cases hm : sentMem sent c.id = true
      · rw [runLoop_cons_skip env c rest store sent hm, withEvents_events, withEvents_sent]
        obtain ⟨h1, h2⟩ := ih (upsertStep env store c) sent hx
        refine ⟨?_, h2⟩
        rw [countNewFor, List.countP_append] at *
        simp [countNewFor, Event.isNewFor] at h1 ⊢
        exact h1
      · have hne : c.id ≠ x := fun he => hm (he ▸ hx)
        simp only [Bool.not_eq_true] at hm
        by_cases htz : env.tzOk c.id = true
        · rw [runLoop_cons_notify env c rest store sent hm htz, withEvents_events,
            withEvents_sent]
          have hx' : sentMem (sentSet sent c.id true) x = true := by
            rw [sentMem_set_ne sent true hne]
            exact hx
          obtain ⟨h1, h2⟩ := ih (upsertStep env store c) (sentSet sent c.id true) hx'
          refine ⟨?_, h2⟩
          rw [countNewFor, List.countP_append]
          rw [countNewFor] at h1
          rw [h1]
          simp [Event.isNewFor, List.countP_cons, beq_eq_false_iff_ne.mpr hne]
        · simp only [Bool.not_eq_true] at htz
          rw [runLoop_cons_tzfail env c rest store sent hm htz, withEvents_events,
            withEvents_sent]
          obtain ⟨h1, h2⟩ := ih (upsertStep env store c) sent hx
          refine ⟨?_, h2⟩
          rw [countNewFor, List.countP_append]
          rw [countNewFor] at h1
          rw [h1]
          simp [Event.isNewFor, List.countP_cons]

/-- An identifier not yet sent, present in the processed records, with a
working timezone load, is notified exactly once and ends up marked. -/
theorem runLoop_notify_once (env : Env) (x : Int) : ∀ (crashes : List Incident) (store : Store)
    (sent : NotifiedSet), sentMem sent x = false →
    x ∈ crashes.map (fun c => c.id) → env.tzOk x = true →
    countNewFor x (runLoop env crashes store sent).events = 1 ∧
      sentMem (runLoop env crashes store sent).sent x = true := by
  intro crashes
  induction crashes with
  | nil => intro store sent _ hx _; simp at hx
  | cons c rest ih =>
      intro store sent hs hx htz
      by_cases hcx : c.id = x
      · have hm : sentMem sent c.id = false := by rw [hcx]; exact hs
        have htz' : env.tzOk c.id = true := by rw [hcx]; exact htz
        rw [runLoop_cons_notify env c rest store sent hm htz', withEvents_events,
          withEvents_sent]
        have hmark : sentMem (sentSet sent c.id true) x = true := by
          rw [hcx, sentMem_set_self]
        obtain ⟨h1, h2⟩ := runLoop_skip_of_mem env x rest (upsertStep env store c)
          (sentSet sent c.id true) hmark
        refine ⟨?_, h2⟩
        rw [countNewFor, List.countP_append]
        rw [countNewFor] at h1
        rw [h1]
        simp [Event.isNewFor, List.countP_cons, hcx]
      · have hx' : x ∈ rest.map (fun c => c.id) := by
          rcases List.mem_map.mp hx with ⟨d, hd, hdx⟩
          rcases List.mem_cons.mp hd with rfl | hd'
          · exact absurd hdx hcx
          · rw [← hdx]
            exact List.mem_map_of_mem _ hd'
        by_cases hm : sentMem sent c.id = true
        · rw [runLoop_cons_skip env c rest store sent hm, withEvents_events, withEvents_sent]
          obtain ⟨h1, h2⟩ := ih (upsertStep env store c) sent hs hx' htz
          refine ⟨?_, h2⟩
          rw [countNewFor, List.countP_append]
          rw [countNewFor] at h1
          rw [h1]
          simp [Event.isNewFor, List.countP_cons]
        · simp only [Bool.not_eq_true] at hm
          by_cases htzc : env.tzOk c.id = true
          · rw [runLoop_cons_notify env c rest store sent hm htzc, withEvents_events,
              withEvents_sent]
            have hs' : sentMem (sentSet sent c.id true) x = false := by
              rw [sentMem_set_ne sent true hcx]
              exact hs
            obtain ⟨h1, h2⟩ := ih (upsertStep env store c) (sentSet sent c.id true) hs' hx' htz
            refine ⟨?_, h2⟩
            rw [countNewFor, List.countP_append]
            rw [countNewFor] at h1
            rw [h1]
            simp [Event.isNewFor, List.countP_cons, beq_eq_false_iff_ne.mpr hcx]
          · simp only [Bool.not_eq_true] at htzc
            rw [runLoop_cons_tzfail env c rest store sent hm htzc, withEvents_events,
              withEvents_sent]
            obtain ⟨h1, h2⟩ := ih (upsertStep env store c) sent hs hx' htz
            refine ⟨?_, h2⟩
            rw [countNewFor, List.countP_append]
            rw [countNewFor] at h1
            rw [h1]
            simp [Event.isNewFor, List.countP_cons]

/-- An identifier whose timezone load fails is neither notified nor marked
sent by the loop. -/
theorem runLoop_tzfail_none (env : Env) (y : Int) : ∀ (crashes : List Incident) (store : Store)
    (sent : NotifiedSet), sentMem sent y = false → env.tzOk y = false →
    countNewFor y (runLoop env crashes store sent).events = 0 ∧
      sentMem (runLoop env crashes store sent).sent y = false := by
  intro crashes
  induction crashes with
  | nil => intro store sent hy _; exact ⟨rfl, hy⟩
  | cons c rest ih =>
      intro store sent hy htz
      by_cases hm : sentMem sent c.id = true
      · have hcy : c.id ≠ y := fun he => by rw [he] at hm; rw [hm] at hy; cases hy
        rw [runLoop_cons_skip env c rest store sent hm, withEvents_events, withEvents_sent]
        obtain ⟨h1, h2⟩ := ih (upsertStep env store c) sent hy htz
        refine ⟨?_, h2⟩
        rw [countNewFor, List.countP_append]
        rw [countNewFor] at h1
        rw [h1]
        simp [Event.isNewFor, List.countP_cons]
      · simp only [Bool.not_eq_true] at hm
        by_cases htzc : env.tzOk c.id = true
        · have hcy : c.id ≠ y := fun he => by rw [he] at htzc; rw [htzc] at htz; cases htz
          rw [runLoop_cons_notify env c rest store sent hm htzc, withEvents_events,
            withEvents_sent]
          have hy' : sentMem (sentSet sent c.id true) y = false := by
            rw [sentMem_set_ne sent true hcy]
            exact hy
          obtain ⟨h1, h2⟩ := ih (upsertStep env store c) (sentSet sent c.id true) hy' htz
          refine ⟨?_, h2⟩
          rw [countNewFor, List.countP_append]
          rw [countNewFor] at h1
          rw [h1]
          simp [Event.isNewFor, List.countP_cons, beq_eq_false_iff_ne.mpr hcy]
        · simp only [Bool.not_eq_true] at htzc
          rw [runLoop_cons_tzfail env c rest store sent hm htzc, withEvents_events,
            withEvents_sent]
          obtain ⟨h1, h2⟩ := ih (upsertStep env store c) sent hy htz
          refine ⟨?_, h2⟩
          rw [countNewFor, List.countP_append]
          rw [countNewFor] at h1
          rw [h1]
          simp [Event.isNewFor, List.countP_cons]

/-- Every processed record gets an upsert call. -/
theorem runLoop_upsert_mem (env : Env) : ∀ (crashes : List Incident) (store : Store)
    (sent : NotifiedSet) (c : Incident), c ∈ crashes →
    Event.upsertCall c ∈ (runLoop env crashes store sent).events := by
  intro crashes
  induction crashes with
  | nil => intro store sent c hc; cases hc
  | cons d rest ih =>
      intro store sent c hc
      have step : ∀ (pre : List Event), Event.upsertCall d ∈ pre →
          ∀ (st : Store) (sn : NotifiedSet), runLoop env (d :: rest) store sent =
            LoopOut.withEvents pre (runLoop env rest st sn) →
            Event.upsertCall c ∈ (runLoop env (d :: rest) store sent).events := by
        intro pre hpre st sn heq
        rw [heq, withEvents_events]
        rcases List.mem_cons.mp hc with rfl | hc'
        · exact List.mem_append.mpr (Or.inl hpre)
        · exact List.mem_append.mpr (Or.inr (ih st sn c hc'))
      by_cases hm : sentMem sent d.id = true
      · exact step _ (List.mem_cons_self _ _) _ _ (runLoop_cons_skip env d rest store sent hm)
      · simp only [Bool.not_eq_true] at hm
        by_cases htz : env.tzOk d.id = true
        · exact step _ (List.mem_cons_self _ _) _ _
            (runLoop_cons_notify env d rest store sent hm htz)
        · simp only [Bool.not_eq_true] at htz
          exact step _ (List.mem_cons_self _ _) _ _
            (runLoop_cons_tzfail env d rest store sent hm htz)

/-- Upsert calls in the loop trace count the processed records with the
given identifier. -/
theorem runLoop_countUpsert (env : Env) (x : Int) : ∀ (crashes : List Incident) (store : Store)
    (sent : NotifiedSet),
    countUpsertFor x (runLoop env crashes store sent).events =
      crashes.countP (fun c => c.id == x) := by
  intro crashes
  induction crashes with
  | nil => intro store sent; rfl
  | cons c rest ih =>
      intro store sent
      by_cases hm : sentMem sent c.id = true
      · rw [runLoop_cons_skip env c rest store sent hm, withEvents_events]
        have ih' := ih (upsertStep env store c) sent
        rw [countUpsertFor, List.countP_append]
        rw [countUpsertFor] at ih'
        rw [ih']
        simp [Event.isUpsertFor, List.countP_cons]
        omega
      · simp only [Bool.not_eq_true] at hm
        by_cases htz : env.tzOk c.id = true
        · rw [runLoop_cons_notify env c rest store sent hm htz, withEvents_events]
          have ih' := ih (upsertStep env store c) (sentSet sent c.id true)
          rw [countUpsertFor, List.countP_append]
          rw [countUpsertFor] at ih'
          rw [ih']
          simp [Event.isUpsertFor, Event.isNewFor, List.countP_cons]
          omega
        · simp only [Bool.not_eq_true] at htz
          rw [runLoop_cons_tzfail env c rest store sent hm htz, withEvents_events]
          have ih' := ih (upsertStep env store c) sent
          rw [countUpsertFor, List.countP_append]
          rw [countUpsertFor] at ih'
          rw [ih']
          simp [Event.isUpsertFor, List.countP_cons]
          omega

/-- Every loop event is an upsert call or a new-incident notification for
a processed record, the notification carrying the displayed start time. -/
theorem runLoop_events_shape (env : Env) : ∀ (crashes : List Incident) (store : Store)
    (sent : NotifiedSet) (e : Event), e ∈ (runLoop env crashes store sent).events →
    (∃ c, c ∈ crashes ∧ e = Event.upsertCall c) ∨
    (∃ c, c ∈ crashes ∧ e = Event.newNotification c (displayTime env c.startTime)) := by
  intro crashes
  induction crashes with
  | nil => intro store sent e he; cases he
  | cons c rest ih =>
      intro store sent e he
      have lift : ∀ (st : Store) (sn : NotifiedSet),
          e ∈ (runLoop env rest st sn).events →
          (∃ d, d ∈ c :: rest ∧ e = Event.upsertCall d) ∨
          (∃ d, d ∈ c :: rest ∧ e = Event.newNotification d (displayTime env d.startTime)) := by
        intro st sn he'
        rcases ih st sn e he' with ⟨d, hd, he2⟩ | ⟨d, hd, he2⟩
        · exact Or.inl ⟨d, List.mem_cons_of_mem c hd, he2⟩
        · exact Or.inr ⟨d, List.mem_cons_of_mem c hd, he2⟩
      by_cases hm : sentMem sent c.id = true
      · rw [runLoop_cons_skip env c rest store sent hm, withEvents_events] at he
        rcases List.mem_append.mp he with h1 | h1
        · rw [List.mem_singleton] at h1
          exact Or.inl ⟨c, List.mem_cons_self c rest, h1⟩
        · exact lift _ _ h1
      · simp only [Bool.not_eq_true] at hm
        by_cases htz : env.tzOk c.id = true
        · rw [runLoop_cons_notify env c rest store sent hm htz, withEvents_events] at he
          rcases List.mem_append.mp he with h1 | h1
          · rcases List.mem_cons.mp h1 with h2 | h2
            · exact Or.inl ⟨c, List.mem_cons_self c rest, h2⟩
            · rw [List.mem_singleton] at h2
              exact Or.inr ⟨c, List.mem_cons_self c rest, h2⟩
          · exact lift _ _ h1
        · simp only [Bool.not_eq_true] at htz
          rw [runLoop_cons_tzfail env c rest store sent hm htz, withEvents_events] at he
          rcases List.mem_append.mp he with h1 | h1
          · rw [List.mem_singleton] at h1
            exact Or.inl ⟨c, List.mem_cons_self c rest, h1⟩
          · exact lift _ _ h1

/-- A not-yet-sent record with distinct feed identifiers and a working
timezone load has its notification (with the displayed start time) in the
loop trace. -/
theorem runLoop_notif_mem (env : Env) (x : Incident) : ∀ (crashes : List Incident)
    (store : Store) (sent : NotifiedSet), x ∈ crashes →
    (crashes.map (fun c => c.id)).Nodup → sentMem sent x.id = false →
    env.tzOk x.id = true →
    Event.newNotification x (displayTime env x.startTime) ∈
      (runLoop env crashes store sent).events := by
  intro crashes
  induction crashes with
  | nil => intro store sent hx; cases hx
  | cons c rest ih =>
      intro store sent hx hnodup hs htz
      rw [List.map_cons, List.nodup_cons] at hnodup
      rcases List.mem_cons.mp hx with rfl | hx'
      · rw [runLoop_cons_notify env x rest store sent hs htz, withEvents_events]
        exact List.mem_append.mpr (Or.inl (by simp))
      · have hne : c.id ≠ x.id := by
          intro he
          exact hnodup.1 (he ▸ List.mem_map_of_mem _ hx')
        by_cases hm : sentMem sent c.id = true
        · rw [runLoop_cons_skip env c rest store sent hm, withEvents_events]
          exact List.mem_append.mpr
            (Or.inr (ih (upsertStep env store c) sent hx' hnodup.2 hs htz))
        · simp only [Bool.not_eq_true] at hm
          by_cases htzc : env.tzOk c.id = true
          · rw [runLoop_cons_notify env c rest store sent hm htzc, withEvents_events]
            have hs' : sentMem (sentSet sent c.id true) x.id = false := by
              rw [sentMem_set_ne sent true hne]
              exact hs
            exact List.mem_append.mpr
              (Or.inr (ih (upsertStep env store c) (sentSet sent c.id true) hx' hnodup.2
                hs' htz))
          · simp only [Bool.not_eq_true] at htzc
            rw [runLoop_cons_tzfail env c rest store sent hm htzc, withEvents_events]
            exact List.mem_append.mpr
              (Or.inr (ih (upsertStep env store c) sent hx' hnodup.2 hs htz))

/-- The loop preserves key distinctness of the notified set. -/
theorem runLoop_sent_nodup (env : Env) : ∀ (crashes : List Incident) (store : Store)
    (sent : NotifiedSet), (sentKeys sent).Nodup →
    (sentKeys (runLoop env crashes store sent).sent).Nodup := by
  intro crashes
  induction crashes with
  | nil => intro store sent h; exact h
  | cons c rest ih =>
      intro store sent h
      by_cases hm : sentMem sent c.id = true
      · rw [runLoop_cons_skip env c rest store sent hm, withEvents_sent]
        exact ih _ _ h
      · simp only [Bool.not_eq_true] at hm
        by_cases htz : env.tzOk c.id = true
        · rw [runLoop_cons_notify env c rest store sent hm htz, withEvents_sent]
          exact ih _ _ (sentSet_keys_nodup _ _ h)
        · simp only [Bool.not_eq_true] at htz
          rw [runLoop_cons_tzfail env c rest store sent hm htz, withEvents_sent]
          exact ih _ _ h

/-! ## Store lemmas -/

theorem conflictUpdate_id (r : StoredIncident) (inc : Incident) :
    (conflictUpdate r inc).id = r.id := rfl

theorem insertRow_id (inc : Incident) : (insertRow inc).id = inc.id := rfl

/-- An upsert for a different identifier leaves the rows with identifier
`x` untouched. -/
theorem upsertIncident_filter_ne (s : Store) (inc : Incident) (x : Int) (h : inc.id ≠ x) :
    (upsertIncident s inc).filter (fun r => r.id == x) = s.filter (fun r => r.id == x) := by
  unfold upsertIncident
  by_cases hany : s.any (fun r => r.id == inc.id) = true
  · rw [if_pos hany]
    apply filter_map_fix
    · intro r hr
      have hrx : r.id = x := beq_iff_eq.mp hr
      rw [if_neg (by rw [hrx]; exact fun he => h (beq_iff_eq.mp he).symm)]
    · intro r
      by_cases hid : (r.id == inc.id) = true
      · rw [if_pos hid, conflictUpdate_id]
      · rw [if_neg hid]
  · rw [if_neg hany]
    rw [List.filter_append]
    rw [show List.filter (fun r => r.id == x) [insertRow inc] = [] from by
      simp [List.filter, insertRow_id, beq_eq_false_iff_ne.mpr h]]
    rw [List.append_nil]

/-- The attempted upsert step for a different identifier leaves the rows
with identifier `x` untouched. -/
theorem upsertStep_filter_ne (env : Env) (s : Store) (inc : Incident) (x : Int)
    (h : inc.id ≠ x) :
    (upsertStep env s inc).filter (fun r => r.id == x) = s.filter (fun r => r.id == x) := by
  unfold upsertStep
  by_cases hok : env.upsertOk inc.id = true
  · rw [if_pos hok]
    exact upsertIncident_filter_ne s inc x h
  · rw [if_neg hok]

/-- An upsert preserves distinctness of the row identifiers. -/
theorem upsertIncident_keys_nodup (s : Store) (inc : Incident)
    (h : (s.map (fun r => r.id)).Nodup) :
    ((upsertIncident s inc).map (fun r => r.id)).Nodup := by
  unfold upsertIncident
  by_cases hany : s.any (fun r => r.id == inc.id) = true
  · rw [if_pos hany]
    have : (s.map (fun r => if r.id == inc.id then conflictUpdate r inc else r)).map
        (fun r => r.id) = s.map (fun r => r.id) := by
      rw [List.map_map]
      apply List.map_congr_left
      intro r _
      by_cases hid : r.id = inc.id
      · simp [hid, conflictUpdate_id]
      · simp [hid]
    rwa [this]
  · rw [if_neg hany]
    rw [List.map_append, List.nodup_append]
    refine ⟨h, by simp, ?_⟩
    intro a ha hb
    simp only [List.map_cons, List.map_nil, List.mem_singleton, insertRow_id] at hb
    subst hb
    rcases List.mem_map.mp ha with ⟨r, hr, hrid⟩
    rw [Bool.not_eq_true] at hany
    have := List.any_eq_false.mp hany r hr
    simp [hrid] at this

theorem upsertStep_keys_nodup (env : Env) (s : Store) (inc : Incident)
    (h : (s.map (fun r => r.id)).Nodup) :
    ((upsertStep env s inc).map (fun r => r.id)).Nodup := by
  unfold upsertStep
  by_cases hok : env.upsertOk inc.id = true
  · rw [if_pos hok]
    exact upsertIncident_keys_nodup s inc h
  · rwa [if_neg hok]

/-- The per-crash loop never touches rows whose identifier is absent from
the processed records. -/
theorem runLoop_store_filter (env : Env) (x : Int) : ∀ (crashes : List Incident)
    (store : Store) (sent : NotifiedSet), (∀ c ∈ crashes, c.id ≠ x) →
    (runLoop env crashes store sent).store.filter (fun r => r.id == x) =
      store.filter (fun r => r.id == x) := by
  intro crashes
  induction crashes with
  | nil => intro store sent _; rfl
  | cons c rest ih =>
      intro store sent hids
      have hc : c.id ≠ x := hids c (List.mem_cons_self c rest)
      have hrest : ∀ d ∈ rest, d.id ≠ x := fun d hd => hids d (List.mem_cons_of_mem c hd)
      have hstep := upsertStep_filter_ne env store c x hc
      by_cases hm : sentMem sent c.id = true
      · rw [runLoop_cons_skip env c rest store sent hm, withEvents_store]
        rw [ih _ _ hrest, hstep]
      · simp only [Bool.not_eq_true] at hm
        by_cases htz : env.tzOk c.id = true
        · rw [runLoop_cons_notify env c rest store sent hm htz, withEvents_store]
          rw [ih _ _ hrest, hstep]
        · simp only [Bool.not_eq_true] at htz
          rw [runLoop_cons_tzfail env c rest store sent hm htz, withEvents_store]
          rw [ih _ _ hrest, hstep]

/-- The per-crash loop preserves distinctness of the row identifiers. -/
theorem runLoop_store_nodup (env : Env) : ∀ (crashes : List Incident) (store : Store)
    (sent : NotifiedSet), (store.map (fun r => r.id)).Nodup →
    ((runLoop env crashes store sent).store.map (fun r => r.id)).Nodup := by
  intro crashes
  induction crashes with
  | nil => intro store sent h; exact h
  | cons c rest ih =>
      intro store sent h
      have hstep := upsertStep_keys_nodup env store c h
      by_cases hm : sentMem sent c.id = true
      · rw [runLoop_cons_skip env c rest store sent hm, withEvents_store]
        exact ih _ _ hstep
      · simp only [Bool.not_eq_true] at hm
        by_cases htz : env.tzOk c.id = true
        · rw [runLoop_cons_notify env c rest store sent hm htz, withEvents_store]
          exact ih _ _ hstep
        · simp only [Bool.not_eq_true] at htz
          rw [runLoop_cons_tzfail env c rest store sent hm htz, withEvents_store]
          exact ih _ _ hstep

/-- In the loop trace, every new-incident notification comes after the
upsert call of its own record. -/
theorem runLoop_newAfterOwnUpsert (env : Env) : ∀ (crashes : List Incident) (store : Store)
    (sent : NotifiedSet) (seen : List Int),
    newAfterOwnUpsert seen (runLoop env crashes store sent).events = true := by
  intro crashes
  induction crashes with
  | nil => intro store sent seen; rfl
  | cons c rest ih =>
      intro store sent seen
      by_cases hm : sentMem sent c.id = true
      · rw [runLoop_cons_skip env c rest store sent hm, withEvents_events]
        rw [show [Event.upsertCall c] ++ (runLoop env rest (upsertStep env store c) sent).events
            = Event.upsertCall c :: (runLoop env rest (upsertStep env store c) sent).events
          from rfl]
        rw [newAfterOwnUpsert]
        exact ih _ _ _
      · simp only [Bool.not_eq_true] at hm
        by_cases htz : env.tzOk c.id = true
        · rw [runLoop_cons_notify env c rest store sent hm htz, withEvents_events]
          rw [show [Event.upsertCall c,
              Event.newNotification c (displayTime env c.startTime)] ++
              (runLoop env rest (upsertStep env store c) (sentSet sent c.id true)).events =
              Event.upsertCall c :: Event.newNotification c (displayTime env c.startTime) ::
              (runLoop env rest (upsertStep env store c) (sentSet sent c.id true)).events
            from rfl]
          rw [newAfterOwnUpsert, newAfterOwnUpsert]
          rw [show (c.id :: seen).contains c.id = true from by simp]
          rw [Bool.true_and]
          exact ih _ _ _
        · simp only [Bool.not_eq_true] at htz
          rw [runLoop_cons_tzfail env c rest store sent hm htz, withEvents_events]
          rw [show [Event.upsertCall c] ++
              (runLoop env rest (upsertStep env store c) sent).events =
              Event.upsertCall c :: (runLoop env rest (upsertStep env store c) sent).events
            from rfl]
          rw [newAfterOwnUpsert]
          exact ih _ _ _

/-! ## Clear-pass lemmas -/

/-- Clearing a different identifier leaves the rows with identifier `x`
untouched. -/
theorem markCleared_filter_ne (s : Store) (y x : Int) (now : Int) (h : y ≠ x) :
    (markCleared s y now).filter (fun r => r.id == x) = s.filter (fun r => r.id == x) := by
  unfold markCleared
  apply filter_map_fix
  · intro r hr
    have hrx : r.id = x := beq_iff_eq.mp hr
    rw [if_neg (by rw [hrx]; exact fun he => h (beq_iff_eq.mp he).symm)]
  · intro r
    by_cases hid : r.id = y
    · simp [hid]
    · simp [hid]

/-- Clearing identifier `x` transforms exactly the rows with identifier
`x`. -/
theorem markCleared_filter_self (s : Store) (x now : Int) :
    (markCleared s x now).filter (fun r => r.id == x) =
      (s.filter (fun r => r.id == x)).map
        (fun r => { r with status := Status.cleared, clearedTime := some now }) := by
  unfold markCleared
  rw [filter_map_comm (fun (r : StoredIncident) => r.id == x)
    (fun (r : StoredIncident) =>
      if r.id == x then { r with status := Status.cleared, clearedTime := some now } else r)
    (by
      intro r
      by_cases hid : r.id = x
      · simp [hid]
      · simp [hid])
    s]
  apply List.map_congr_left
  intro r hr
  have := List.of_mem_filter hr
  rw [if_pos this]

/-- Every clear-loop event is a cleared notification for a listed crash. -/
theorem clearLoop_events_shape (env : Env) (now : Int) : ∀ (toClear : List ClearedIncident)
    (store : Store) (e : Event), e ∈ (clearLoop env now toClear store).2 →
    ∃ c, c ∈ toClear ∧ e = Event.clearedNotification c := by
  intro toClear
  induction toClear with
  | nil => intro store e he; cases he
  | cons c rest ih =>
      intro store e he
      by_cases hok : env.clearOk c.id = true
      · rw [clearLoop, if_pos hok] at he
        rcases List.mem_cons.mp he with h1 | h1
        · exact ⟨c, List.mem_cons_self c rest, h1⟩
        · rcases ih _ e h1 with ⟨d, hd, he2⟩
          exact ⟨d, List.mem_cons_of_mem c hd, he2⟩
      · rw [clearLoop, if_neg hok] at he
        rcases ih _ e he with ⟨d, hd, he2⟩
        exact ⟨d, List.mem_cons_of_mem c hd, he2⟩

/-- Cleared notifications for identifier `x` count the listed crashes with
identifier `x` whose UPDATE succeeds. -/
theorem clearLoop_count (env : Env) (now : Int) (x : Int) : ∀ (toClear : List ClearedIncident)
    (store : Store),
    countClearedFor x (clearLoop env now toClear store).2 =
      toClear.countP (fun c => c.id == x && env.clearOk c.id) := by
  intro toClear
  induction toClear with
  | nil => intro store; rfl
  | cons c rest ih =>
      intro store
      by_cases hok : env.clearOk c.id = true
      · have ih' := ih (markCleared store c.id now)
        rw [countClearedFor] at ih'
        rw [show (clearLoop env now (c :: rest) store).2 =
            Event.clearedNotification c ::
              (clearLoop env now rest (markCleared store c.id now)).2 from by
          rw [clearLoop, if_pos hok]]
        rw [countClearedFor, List.countP_cons, ih']
        simp [Event.isClearedFor, List.countP_cons, hok]
      · have ih' := ih store
        rw [show (clearLoop env now (c :: rest) store).2 =
            (clearLoop env now rest store).2 from by rw [clearLoop, if_neg hok]]
        rw [ih']
        rw [Bool.not_eq_true] at hok
        simp [List.countP_cons, hok]

/-- A successfully cleared crash has its cleared notification in the clear
trace. -/
theorem clearLoop_notif_mem (env : Env) (now : Int) : ∀ (toClear : List ClearedIncident)
    (store : Store) (c0 : ClearedIncident), c0 ∈ toClear → env.clearOk c0.id = true →
    Event.clearedNotification c0 ∈ (clearLoop env now toClear store).2 := by
  intro toClear
  induction toClear with
  | nil => intro store c0 hc; cases hc
  | cons c rest ih =>
      intro store c0 hc hok
      rcases List.mem_cons.mp hc with rfl | hc'
      · rw [clearLoop, if_pos hok]
        exact List.mem_cons_self _ _
      · by_cases hokc : env.clearOk c.id = true
        · rw [clearLoop, if_pos hokc]
          exact List.mem_cons_of_mem _ (ih _ c0 hc' hok)
        · rw [clearLoop, if_neg hokc]
          exact ih _ c0 hc' hok

/-- When no listed crash with identifier `x` is successfully cleared, the
rows with identifier `x` are untouched by the clear loop. -/
theorem clearLoop_store_frame (env : Env) (now : Int) (x : Int) :
    ∀ (toClear : List ClearedIncident) (store : Store),
    (∀ c ∈ toClear, c.id = x → env.clearOk c.id = false) →
    (clearLoop env now toClear store).1.filter (fun r => r.id == x) =
      store.filter (fun r => r.id == x) := by
  intro toClear
  induction toClear with
  | nil => intro store _; rfl
  | cons c rest ih =>
      intro store hno
      have hrest : ∀ d ∈ rest, d.id = x → env.clearOk d.id = false :=
        fun d hd => hno d (List.mem_cons_of_mem c hd)
      by_cases hok : env.clearOk c.id = true
      · have hcx : c.id ≠ x := by
          intro he
          rw [hno c (List.mem_cons_self c rest) he] at hok
          cases hok
        rw [clearLoop, if_pos hok]
        rw [show ((clearLoop env now rest (markCleared store c.id now)).1,
            Event.clearedNotification c :: (clearLoop env now rest
              (markCleared store c.id now)).2).1 =
            (clearLoop env now rest (markCleared store c.id now)).1 from rfl]
        rw [ih _ hrest, markCleared_filter_ne store c.id x now hcx]
      · rw [clearLoop, if_neg hok]
        exact ih _ hrest

/-- When the listed crashes contain exactly one entry with identifier `x`
and its UPDATE succeeds, the rows with identifier `x` come out cleared
with the run's timestamp. -/
theorem clearLoop_store_cleared (env : Env) (now : Int) (x : Int) (c0 : ClearedIncident) :
    ∀ (toClear : List ClearedIncident) (store : Store),
    toClear.filter (fun c => c.id == x) = [c0] → env.clearOk x = true → c0.id = x →
    (clearLoop env now toClear store).1.filter (fun r => r.id == x) =
      (store.filter (fun r => r.id == x)).map
        (fun r => { r with status := Status.cleared, clearedTime := some now }) := by
  intro toClear
  induction toClear with
  | nil => intro store h; simp [List.filter] at h
  | cons c rest ih =>
      intro store hfilter hok hc0
      by_cases hcx : c.id = x
      · have hhead : (c.id == x) = true := beq_iff_eq.mpr hcx
        rw [List.filter_cons, if_pos hhead] at hfilter
        rw [List.cons.injEq] at hfilter
        have hrest : rest.filter (fun c => c.id == x) = [] := hfilter.2
        have hceq : c = c0 := hfilter.1
        have hokc : env.clearOk c.id = true := by rw [hcx]; exact hok
        rw [clearLoop, if_pos hokc]
        rw [show ((clearLoop env now rest (markCleared store c.id now)).1,
            Event.clearedNotification c :: (clearLoop env now rest
              (markCleared store c.id now)).2).1 =
            (clearLoop env now rest (markCleared store c.id now)).1 from rfl]
        have hnone : ∀ d ∈ rest, d.id = x → env.clearOk d.id = false := by
          intro d hd hdx
          exfalso
          have : d ∈ rest.filter (fun c => c.id == x) :=
            List.mem_filter.mpr ⟨hd, beq_iff_eq.mpr hdx⟩
          rw [hrest] at this
          cases this
        rw [clearLoop_store_frame env now x rest _ hnone]
        rw [hcx, markCleared_filter_self]
      · have hhead : (c.id == x) = false := beq_eq_false_iff_ne.mpr hcx
        rw [List.filter_cons, if_neg (by simp [hhead])] at hfilter
        by_cases hokc : env.clearOk c.id = true
        · rw [clearLoop, if_pos hokc]
          rw [show ((clearLoop env now rest (markCleared store c.id now)).1,
              Event.clearedNotification c :: (clearLoop env now rest
                (markCleared store c.id now)).2).1 =
              (clearLoop env now rest (markCleared store c.id now)).1 from rfl]
          rw [ih _ hfilter hok hc0, markCleared_filter_ne store c.id x now hcx]
        · rw [clearLoop, if_neg hokc]
          exact ih _ hfilter hok hc0

/-! ## Query and pass-assembly lemmas -/

theorem filter_comm {α : Type} (p q : α → Bool) (l : List α) :
    (l.filter p).filter q = (l.filter q).filter p := by
  rw [List.filter_filter, List.filter_filter]
  exact List.filter_congr (fun a _ => by rw [Bool.and_comm])

/-- The active-crash query, restricted to one identifier, is the projected
restriction of the store. -/
theorem queryActive_filter_key (s : Store) (x : Int) :
    (queryActiveCrashes s).filter (fun c => c.id == x) =
      ((s.filter (fun r => r.id == x)).filter
        (fun r => r.status == Status.active && r.incidentType == "Vehicle Crash")).map
        (fun r => { id := r.id, road := r.road, location := r.location, city := r.city }) := by
  unfold queryActiveCrashes
  rw [List.filter_map]
  rw [filter_comm]
  congr 1

/-- If no processed record has identifier `x`, the current-ID set lacks
`x`. -/
theorem feedHasId_false (l : List Incident) (x : Int) (h : ∀ c ∈ l, c.id ≠ x) :
    feedHasId l x = false := by
  unfold feedHasId
  rw [List.any_eq_false]
  intro c hc hcx
  exact h c hc (beq_iff_eq.mp hcx)

/-- The loop trace contains no cleared notifications. -/
theorem countClearedFor_runLoop (env : Env) (x : Int) (crashes : List Incident) (store : Store)
    (sent : NotifiedSet) :
    countClearedFor x (runLoop env crashes store sent).events = 0 := by
  rw [countClearedFor, List.countP_eq_zero]
  intro e he
  rcases runLoop_events_shape env crashes store sent e he with ⟨c, _, rfl⟩ | ⟨c, _, rfl⟩ <;>
    simp [Event.isClearedFor]

/-- The clear trace contains no upsert calls for any identifier. -/
theorem countUpsertFor_clearLoop (env : Env) (now : Int) (x : Int)
    (toClear : List ClearedIncident) (store : Store) :
    countUpsertFor x (clearLoop env now toClear store).2 = 0 := by
  rw [countUpsertFor, List.countP_eq_zero]
  intro e he
  rcases clearLoop_events_shape env now toClear store e he with ⟨c, _, rfl⟩
  simp [Event.isUpsertFor]

/-- The clear trace contains no new-incident notifications. -/
theorem countNewFor_clearLoop (env : Env) (now : Int) (x : Int)
    (toClear : List ClearedIncident) (store : Store) :
    countNewFor x (clearLoop env now toClear store).2 = 0 := by
  rw [countNewFor, List.countP_eq_zero]
  intro e he
  rcases clearLoop_events_shape env now toClear store e he with ⟨c, _, rfl⟩
  simp [Event.isNewFor]

/-- A completed run on a decodable ledger computes its components from the
loop and the clear pass. -/
theorem runMain_ok_eq (env : Env) (now : Int) (l : List Incident) (file : Option String)
    (store : Store) (s0 : NotifiedSet) (hp : env.dbPingOk = true)
    (hl : loadSentIncidents file = .ok s0) :
    runMain env now (.ok l) file store = .completed
      (clearPass env now (runLoop env (filterCrashes l) store s0).store
        (feedHasId (filterCrashes l))).1
      (if env.saveOk then
        some (saveSentIncidents (runLoop env (filterCrashes l) store s0).sent)
      else file)
      ((runLoop env (filterCrashes l) store s0).events ++
        (clearPass env now (runLoop env (filterCrashes l) store s0).store
          (feedHasId (filterCrashes l))).2)
      (runLoop env (filterCrashes l) store s0).sent := by
  rw [runMain, if_pos hp, hl]

/-- Inversion: a completed run had a working ping and a decodable ledger,
and its components are those of the loop and the clear pass. -/
theorem runMain_completed_inv (env : Env) (now : Int) (l : List Incident)
    (file : Option String) (store : Store) (st2 : Store) (f2 : Option String)
    (evs : List Event) (sn : NotifiedSet)
    (hrun : runMain env now (.ok l) file store = .completed st2 f2 evs sn) :
    env.dbPingOk = true ∧ ∃ s0, loadSentIncidents file = .ok s0 ∧
      st2 = (clearPass env now (runLoop env (filterCrashes l) store s0).store
        (feedHasId (filterCrashes l))).1 ∧
      f2 = (if env.saveOk then
        some (saveSentIncidents (runLoop env (filterCrashes l) store s0).sent) else file) ∧
      evs = (runLoop env (filterCrashes l) store s0).events ++
        (clearPass env now (runLoop env (filterCrashes l) store s0).store
          (feedHasId (filterCrashes l))).2 ∧
      sn = (runLoop env (filterCrashes l) store s0).sent := by
  have hp : env.dbPingOk = true := by
    by_contra hp
    rw [runMain, if_neg hp] at hrun
    cases hrun
  refine ⟨hp, ?_⟩
  rcases hl : loadSentIncidents file with e | s0
  · rw [runMain, if_pos hp, hl] at hrun
    cases hrun
  · rw [runMain_ok_eq env now l file store s0 hp hl] at hrun
    rw [RunResult.completed.injEq] at hrun
    exact ⟨s0, rfl, hrun.1.symm, hrun.2.1.symm, hrun.2.2.1.symm, hrun.2.2.2.symm⟩

/-- The upserted row: the conflict update of the stored row if the key was
present, the freshly inserted row otherwise. -/
theorem storeFind_upsert_self (s : Store) (inc : Incident) :
    storeFind (upsertIncident s inc) inc.id =
      (match storeFind s inc.id with
       | some old => some (conflictUpdate old inc)
       | none => some (insertRow inc)) := by
  unfold storeFind upsertIncident
  by_cases hany : s.any (fun r => r.id == inc.id) = true
  · rw [if_pos hany]
    rw [find?_map_pres (fun (r : StoredIncident) => r.id == inc.id)
      (fun r => if r.id == inc.id then conflictUpdate r inc else r)
      (by
        intro r
        show ((if (r.id == inc.id) = true then conflictUpdate r inc else r).id == inc.id) =
          (r.id == inc.id)
        by_cases hid : (r.id == inc.id) = true
        · rw [if_pos hid, conflictUpdate_id]
        · rw [if_neg hid]) s]
    rcases hf : s.find? (fun r => r.id == inc.id) with _ | old
    · rw [List.find?_eq_none] at hf
      rcases List.any_eq_true.mp hany with ⟨a, ha, hpa⟩
      exact absurd hpa (hf a ha)
    · have hold : (old.id == inc.id) = true := by simpa using List.find?_some hf
      rw [hf]
      simp [beq_iff_eq.mp hold]
  · rw [if_neg hany]
    have hnone : s.find? (fun r => r.id == inc.id) = none := by
      rw [List.find?_eq_none]
      intro a ha hpa
      exact hany (List.any_eq_true.mpr ⟨a, ha, hpa⟩)
    rw [List.find?_append, hnone]
    simp [List.find?, insertRow_id]

/-- An upsert leaves every other key's lookup unchanged. -/
theorem storeFind_upsert_ne (s : Store) (inc : Incident) (y : Int) (h : inc.id ≠ y) :
    storeFind (upsertIncident s inc) y = storeFind s y := by
  unfold storeFind upsertIncident
  by_cases hany : s.any (fun r => r.id == inc.id) = true
  · rw [if_pos hany]
    rw [find?_map_pres (fun (r : StoredIncident) => r.id == y)
      (fun r => if r.id == inc.id then conflictUpdate r inc else r)
      (by
        intro r
        show ((if (r.id == inc.id) = true then conflictUpdate r inc else r).id == y) =
          (r.id == y)
        by_cases hid : (r.id == inc.id) = true
        · rw [if_pos hid, conflictUpdate_id]
        · rw [if_neg hid]) s]
    rcases hf : s.find? (fun r => r.id == y) with _ | a
    · rw [hf]
      rfl
    · have hay : a.id = y := beq_iff_eq.mp (by simpa using List.find?_some hf)
      have hne : (a.id == inc.id) = false := by
        rw [beq_eq_false_iff_ne, hay]
        exact fun he => h he.symm
      rw [hf]
      simp [beq_eq_false_iff_ne.mp hne]
  · rw [if_neg hany]
    rw [List.find?_append]
    have hins : List.find? (fun r => r.id == y) [insertRow inc] = none := by
      simp [List.find?, insertRow_id, beq_eq_false_iff_ne.mpr h]
    rw [hins]
    rcases hf : s.find? (fun r => r.id == y) with _ | a <;> rw [hf] <;> rfl

/-! ## Claim theorems -/

/-- C3: `upsertIncident`, keyed by identifier, always sets status=active
and cleared-timestamp=NULL (even if the row was previously cleared); on
conflict it refreshes exactly latitude, longitude, reason, condition,
incident type, severity, end time, last update, lanes closed and detour,
leaving every other stored field of the row unchanged; and it leaves every
other identifier's row untouched. -/
theorem spec_C3 (s : Store) (inc : Incident) :
    (∃ row, storeFind (upsertIncident s inc) inc.id = some row ∧
        row.status = Status.active ∧ row.clearedTime = none) ∧
    (∀ old, storeFind s inc.id = some old →
      ∃ row, storeFind (upsertIncident s inc) inc.id = some row ∧
        row.status = Status.active ∧ row.clearedTime = none ∧
        row.latitude = inc.latitude ∧ row.longitude = inc.longitude ∧
        row.reason = inc.reason ∧ row.condition = inc.condition ∧
        row.incidentType = inc.incidentType ∧ row.severity = inc.severity ∧
        row.endTime = inc.endTime ∧ row.lastUpdate = inc.lastUpdate ∧
        row.lanesClosed = inc.lanesClosed ∧ row.detour = inc.detour ∧
        row.id = old.id ∧ row.commonName = old.commonName ∧
        row.direction = old.direction ∧ row.location = old.location ∧
        row.countyId = old.countyId ∧ row.countyName = old.countyName ∧
        row.city = old.city ∧ row.startTime = old.startTime ∧
        row.road = old.road ∧ row.routeId = old.routeId ∧
        row.lanesTotal = old.lanesTotal ∧ row.crossStreetPfx = old.crossStreetPfx ∧
        row.crossStreetNumber = old.crossStreetNumber ∧
        row.crossStreetSfx = old.crossStreetSfx ∧
        row.crossStreetCommonName = old.crossStreetCommonName ∧
        row.event = old.event ∧
        row.createdFromConcurrent = old.createdFromConcurrent ∧
        row.movableConstruction = old.movableConstruction ∧
        row.workZoneSpeedLimit = old.workZoneSpeedLimit) ∧
    (∀ y, y ≠ inc.id → storeFind (upsertIncident s inc) y = storeFind s y) := by
  refine ⟨?_, ?_, ?_⟩
  · rw [storeFind_upsert_self]
    rcases hf : storeFind s inc.id with _ | old
    · exact ⟨insertRow inc, rfl, rfl, rfl⟩
    · exact ⟨conflictUpdate old inc, rfl, rfl, rfl⟩
  · intro old hold
    rw [storeFind_upsert_self, hold]
    refine ⟨conflictUpdate old inc, rfl, ?_⟩
    simp [conflictUpdate]
  · intro y hy
    exact storeFind_upsert_ne s inc y (fun he => hy he.symm)

/-- The incident used by the C3 witness. -/
def incWit : Incident := mkIncident 7 "Vehicle Crash"

/-- The stored (previously cleared) row used by the C3 witness. -/
def oldWit : StoredIncident := mkStored 7 "Fog" "r" "l" "c" Status.cleared

/-- Witness for C3: a previously cleared row with identifier 7 is
re-upserted; the result is active with no cleared timestamp, refreshed
from the incident on the fixed field list and unchanged elsewhere. -/
theorem spec_C3_witness :
      ∃ row, storeFind (upsertIncident [mkStored 7 "Fog" "r" "l" "c" Status.cleared] incWit) incWit.id = some row ∧
        row.status = Status.active ∧ row.clearedTime = none ∧
        row.latitude = incWit.latitude ∧ row.longitude = incWit.longitude ∧
        row.reason = incWit.reason ∧ row.condition = incWit.condition ∧
        row.incidentType = incWit.incidentType ∧ row.severity = incWit.severity ∧
        row.endTime = incWit.endTime ∧ row.lastUpdate = incWit.lastUpdate ∧
        row.lanesClosed = incWit.lanesClosed ∧ row.detour = incWit.detour ∧
        row.id = oldWit.id ∧ row.commonName = oldWit.commonName ∧
        row.direction = oldWit.direction ∧ row.location = oldWit.location ∧
        row.countyId = oldWit.countyId ∧ row.countyName = oldWit.countyName ∧
        row.city = oldWit.city ∧ row.startTime = oldWit.startTime ∧
        row.road = oldWit.road ∧ row.routeId = oldWit.routeId ∧
        row.lanesTotal = oldWit.lanesTotal ∧ row.crossStreetPfx = oldWit.crossStreetPfx ∧
        row.crossStreetNumber = oldWit.crossStreetNumber ∧
        row.crossStreetSfx = oldWit.crossStreetSfx ∧
        row.crossStreetCommonName = oldWit.crossStreetCommonName ∧
        row.event = oldWit.event ∧
        row.createdFromConcurrent = oldWit.createdFromConcurrent ∧
        row.movableConstruction = oldWit.movableConstruction ∧
        row.workZoneSpeedLimit = oldWit.workZoneSpeedLimit :=
  (spec_C3 [mkStored 7 "Fog" "r" "l" "c" Status.cleared] incWit).2.1 oldWit (by decide)

/-- C6: if the feed fetch fails, the response body cannot be read, or the
payload fails to decode, the run exits fatally (non-zero status) with the
store and the ledger file exactly as they were before the run. -/
theorem spec_C6 (env : Env) (now : Int) (file : Option String) (store : Store) :
    runMain env now FeedOutcome.fetchErr file store = RunResult.fatal store file ∧
    runMain env now FeedOutcome.readErr file store = RunResult.fatal store file ∧
    runMain env now FeedOutcome.decodeErr file store = RunResult.fatal store file := by
  refine ⟨?_, ?_, ?_⟩ <;>
    · rw [runMain]
      by_cases hp : env.dbPingOk = true
      · rw [if_pos hp]
        rcases hl : loadSentIncidents file with e | s0 <;> rfl
      · rw [if_neg hp]

/-- C7: saving a (distinct-keyed) NotifiedSet and reloading it yields an
equal mapping; loading from a missing file or an empty file yields the
empty mapping without error. -/
theorem spec_C7 (m : NotifiedSet) (h : (sentKeys m).Nodup) :
    loadSentIncidents (some (saveSentIncidents m)) = Except.ok m ∧
    loadSentIncidents none = Except.ok [] ∧
    loadSentIncidents (some "") = Except.ok [] :=
  ⟨load_save_round m h, rfl, by decide⟩

/-- Witness for C7: the mapping with identifiers 3 and 9 round-trips. -/
theorem spec_C7_witness :
    loadSentIncidents (some (saveSentIncidents [(3, true), (9, true)])) =
      Except.ok [(3, true), (9, true)] ∧
    loadSentIncidents none = Except.ok [] ∧
    loadSentIncidents (some "") = Except.ok [] :=
  spec_C7 [(3, true), (9, true)] (by decide)

/-- A failed database ping exits fatally before anything else. -/
theorem runMain_ping_fatal (env : Env) (now : Int) (feed : FeedOutcome) (file : Option String)
    (store : Store) (hp : env.dbPingOk = false) :
    runMain env now feed file store = RunResult.fatal store file := by
  rw [runMain, if_neg (by simp [hp])]

/-- A ledger decode failure exits fatally before anything else. -/
theorem runMain_load_err (env : Env) (now : Int) (feed : FeedOutcome) (file : Option String)
    (store : Store) (e : String) (hp : env.dbPingOk = true)
    (hl : loadSentIncidents file = .error e) :
    runMain env now feed file store = RunResult.fatal store file := by
  rw [runMain, if_pos hp, hl]

/-- Every clear-pass event is a cleared notification. -/
theorem clearPass_events_shape (env : Env) (now : Int) (store : Store) (cur : Int → Bool)
    (e : Event) (he : e ∈ (clearPass env now store cur).2) :
    e.isUpsert = false ∧ e.isNewNotif = false ∧ e.isClearedNotif = true := by
  unfold clearPass at he
  by_cases h : env.queryActiveOk = true
  · rw [if_pos h] at he
    rcases clearLoop_events_shape env now _ store e he with ⟨c, _, rfl⟩
    exact ⟨rfl, rfl, rfl⟩
  · rw [if_neg h] at he
    cases he

/-- The clear pass posts no new-incident notifications. -/
theorem clearPass_countNew_zero (env : Env) (now : Int) (store : Store) (cur : Int → Bool)
    (x : Int) : countNewFor x (clearPass env now store cur).2 = 0 := by
  unfold clearPass
  by_cases h : env.queryActiveOk = true
  · rw [if_pos h]
    exact countNewFor_clearLoop env now x _ store
  · rw [if_neg h]
    rfl

/-- The clear pass makes no upsert calls. -/
theorem clearPass_countUpsert_zero (env : Env) (now : Int) (store : Store) (cur : Int → Bool)
    (x : Int) : countUpsertFor x (clearPass env now store cur).2 = 0 := by
  unfold clearPass
  by_cases h : env.queryActiveOk = true
  · rw [if_pos h]
    exact countUpsertFor_clearLoop env now x _ store
  · rw [if_neg h]
    rfl

/-- A trace with no upsert calls and no new-incident notifications keeps
the clear pass last trivially. -/
theorem clearComesLast_of_no_loop : ∀ (b : List Event),
    (∀ e ∈ b, e.isUpsert = false ∧ e.isNewNotif = false) → clearComesLast b = true := by
  intro b
  induction b with
  | nil => intro _; rfl
  | cons e rest ih =>
      intro hb
      rw [clearComesLast, Bool.and_eq_true]
      constructor
      · by_cases hcl : e.isClearedNotif = true
        · rw [if_pos hcl]
          rw [List.all_eq_true]
          intro x hx
          obtain ⟨h1, h2⟩ := hb x (List.mem_cons_of_mem _ hx)
          simp [h1, h2]
        · rw [if_neg hcl]
      · exact ih (fun x hx => hb x (List.mem_cons_of_mem _ hx))

/-- Cleared-free events followed by loop-free events keep the clear pass
last. -/
theorem clearComesLast_append (a b : List Event)
    (ha : ∀ e ∈ a, e.isClearedNotif = false)
    (hb : ∀ e ∈ b, e.isUpsert = false ∧ e.isNewNotif = false) :
    clearComesLast (a ++ b) = true := by
  induction a with
  | nil => exact clearComesLast_of_no_loop b hb
  | cons e a' ih =>
      rw [List.cons_append, clearComesLast, Bool.and_eq_true]
      constructor
      · rw [if_neg (by simp [ha e (List.mem_cons_self _ _)])]
      · exact ih (fun x hx => ha x (List.mem_cons_of_mem _ hx))

/-- Appending cleared notifications preserves the per-record
upsert-before-notification discipline. -/
theorem newAfterOwnUpsert_append_cleared : ∀ (a b : List Event) (seen : List Int),
    newAfterOwnUpsert seen a = true → (∀ e ∈ b, e.isClearedNotif = true) →
    newAfterOwnUpsert seen (a ++ b) = true := by
  intro a
  induction a with
  | nil =>
      intro b
      induction b with
      | nil => intro seen _ _; rfl
      | cons e rest ihb =>
          intro seen _ hb
          rcases e with c | ⟨c, ft⟩ | c
          · exact absurd (hb _ (List.mem_cons_self _ _)) (by simp [Event.isClearedNotif])
          · exact absurd (hb _ (List.mem_cons_self _ _)) (by simp [Event.isClearedNotif])
          · rw [List.nil_append, newAfterOwnUpsert]
            have := ihb seen rfl (fun x hx => hb x (List.mem_cons_of_mem _ hx))
            rw [List.nil_append] at this
            exact this
  | cons e a' ih =>
      intro b seen h hb
      rcases e with c | ⟨c, ft⟩ | c
      · rw [List.cons_append, newAfterOwnUpsert]
        rw [newAfterOwnUpsert] at h
        exact ih b _ h hb
      · rw [List.cons_append, newAfterOwnUpsert]
        rw [newAfterOwnUpsert, Bool.and_eq_true] at h
        rw [Bool.and_eq_true]
        exact ⟨h.1, ih b _ h.2 hb⟩
      · rw [List.cons_append, newAfterOwnUpsert]
        rw [newAfterOwnUpsert] at h
        exact ih b _ h hb

/-- C4 counterexample: with two fresh Vehicle Crash records in the feed,
the claimed schedule "the upsert pass fully completes before the
notify-new pass begins" is violated: a new-incident notification (for the
first record) precedes an upsert call (for the second). -/
theorem spec_C4_cex :
    noUpsertAfterNew (RunResult.events (runMain envOkAll 0
      (FeedOutcome.ok [mkIncident 1 "Vehicle Crash", mkIncident 2 "Vehicle Crash"])
      none [])) = false := by
  decide

/-- C4 (amended): upserts and new-incident notifications are interleaved
in one loop over the snapshot — for each record the upsert call precedes
that record's notification — and both fully complete before the clear
pass: no upsert call or new-incident notification follows any cleared
notification. -/
theorem spec_C4 (env : Env) (now : Int) (l : List Incident) (file : Option String)
    (store : Store) (st2 : Store) (f2 : Option String) (evs : List Event) (sn : NotifiedSet)
    (hrun : runMain env now (.ok l) file store = .completed st2 f2 evs sn) :
    clearComesLast evs = true ∧ newAfterOwnUpsert [] evs = true := by
  obtain ⟨hp, s0, hl, _, _, hevs, _⟩ :=
    runMain_completed_inv env now l file store st2 f2 evs sn hrun
  subst hevs
  constructor
  · apply clearComesLast_append
    · intro e he
      rcases runLoop_events_shape env _ _ _ e he with ⟨c, _, rfl⟩ | ⟨c, _, rfl⟩ <;> rfl
    · intro e he
      obtain ⟨h1, h2, _⟩ := clearPass_events_shape env now _ _ e he
      exact ⟨h1, h2⟩
  · apply newAfterOwnUpsert_append_cleared
    · exact runLoop_newAfterOwnUpsert env _ _ _ []
    · intro e he
      exact (clearPass_events_shape env now _ _ e he).2.2

/-- Witness for C4: the amended ordering holds on a concrete completed
run. -/
theorem spec_C4_witness :
    clearComesLast (RunResult.events (runMain envOkAll 0
      (FeedOutcome.ok [mkIncident 1 "Vehicle Crash"]) none [])) = true ∧
    newAfterOwnUpsert [] (RunResult.events (runMain envOkAll 0
      (FeedOutcome.ok [mkIncident 1 "Vehicle Crash"]) none [])) = true :=
  spec_C4 envOkAll 0 [mkIncident 1 "Vehicle Crash"] none [] _ _ _ _ rfl

/-- C5 counterexample: a feed incident with identifier 5 and category
"Fog" while the store holds an active Vehicle Crash row with identifier 5:
the run does issue a clearance of that identifier (the claim asserts it
never does, "regardless of that identifier's presence in the store"). -/
theorem spec_C5_cex :
    ¬ (countUpsertFor 5 (RunResult.events (runMain envOkAll 7
        (FeedOutcome.ok [mkIncident 5 "Fog"]) none
        [mkStored 5 "Vehicle Crash" "r" "l" "c" Status.active])) = 0 ∧
      countNewFor 5 (RunResult.events (runMain envOkAll 7
        (FeedOutcome.ok [mkIncident 5 "Fog"]) none
        [mkStored 5 "Vehicle Crash" "r" "l" "c" Status.active])) = 0 ∧
      countClearedFor 5 (RunResult.events (runMain envOkAll 7
        (FeedOutcome.ok [mkIncident 5 "Fog"]) none
        [mkStored 5 "Vehicle Crash" "r" "l" "c" Status.active])) = 0) := by
  decide

/-- No event of a run on a feed containing the non-matching incident `x`
is an upsert call or new-incident notification for `x`'s record. -/
theorem runMain_no_nonVC_events (env : Env) (now : Int) (l : List Incident)
    (file : Option String) (store : Store) (x : Incident)
    (hty : x.incidentType ≠ "Vehicle Crash") (e : Event)
    (he : e ∈ (runMain env now (.ok l) file store).events) :
    (∀ ft, e ≠ Event.newNotification x ft) ∧ e ≠ Event.upsertCall x := by
  rcases hres : runMain env now (.ok l) file store with ⟨s, f⟩ | ⟨st2, f2, evs, sn⟩
  · rw [hres] at he
    cases he
  · rw [hres] at he
    obtain ⟨hp, s0, hl, _, _, hevs, _⟩ :=
      runMain_completed_inv env now l file store st2 f2 evs sn hres
    rw [RunResult.events] at he
    rw [hevs] at he
    rcases List.mem_append.mp he with h1 | h1
    · rcases runLoop_events_shape env _ _ _ e h1 with ⟨c, hc, rfl⟩ | ⟨c, hc, rfl⟩
      · rw [filterCrashes] at hc
        have hcvc : (c.incidentType == "Vehicle Crash") = true := by
          have h3 := List.of_mem_filter hc
          simpa using h3
        constructor
        · intro ft h2
          cases h2
        · intro h2
          rw [Event.upsertCall.injEq] at h2
          rw [h2] at hcvc
          exact hty (beq_iff_eq.mp hcvc)
      · rw [filterCrashes] at hc
        have hcvc : (c.incidentType == "Vehicle Crash") = true := by
          have h3 := List.of_mem_filter hc
          simpa using h3
        constructor
        · intro ft h2
          rw [Event.newNotification.injEq] at h2
          rw [h2.1] at hcvc
          exact hty (beq_iff_eq.mp hcvc)
        · intro h2
          cases h2
    · obtain ⟨hu, hn, _⟩ := clearPass_events_shape env now _ _ e h1
      constructor
      · intro ft h2
        rw [h2] at hn
        cases hn
      · intro h2
        rw [h2] at hu
        cases hu

/-- C5 (amended): a feed incident whose category is not "Vehicle Crash"
takes no part in the run: the run's outcome is identical to the run whose
feed omits it, and no upsert call or new-incident notification is ever
issued for its record.  (A clearance of its identifier may still occur —
exactly as it would if the incident were absent from the feed — when the
store holds an active Vehicle Crash row with that identifier.) -/
theorem spec_C5 (env : Env) (now : Int) (l1 l2 : List Incident) (x : Incident)
    (file : Option String) (store : Store) (hty : x.incidentType ≠ "Vehicle Crash") :
    runMain env now (.ok (l1 ++ x :: l2)) file store =
      runMain env now (.ok (l1 ++ l2)) file store ∧
    (∀ ft, Event.newNotification x ft ∉
      (runMain env now (.ok (l1 ++ x :: l2)) file store).events) ∧
    Event.upsertCall x ∉ (runMain env now (.ok (l1 ++ x :: l2)) file store).events := by
  have hfc : filterCrashes (l1 ++ x :: l2) = filterCrashes (l1 ++ l2) := by
    unfold filterCrashes
    rw [List.filter_append, List.filter_append, List.filter_cons]
    rw [if_neg (by simp [beq_eq_false_iff_ne.mpr hty])]
  refine ⟨?_, ?_, ?_⟩
  · by_cases hp : env.dbPingOk = true
    · rcases hl : loadSentIncidents file with e | s0
      · rw [runMain_load_err env now _ file store e hp hl,
          runMain_load_err env now _ file store e hp hl]
      · rw [runMain_ok_eq env now (l1 ++ x :: l2) file store s0 hp hl,
          runMain_ok_eq env now (l1 ++ l2) file store s0 hp hl, hfc]
    · rw [Bool.not_eq_true] at hp
      rw [runMain_ping_fatal env now _ file store hp, runMain_ping_fatal env now _ file store hp]
  · intro ft hmem
    exact (runMain_no_nonVC_events env now _ file store x hty _ hmem).1 ft rfl
  · intro hmem
    exact (runMain_no_nonVC_events env now _ file store x hty _ hmem).2 rfl

/-- Witness for C5: the amended claim at the counterexample input — the
run with the "Fog" incident equals the run without it, and no upsert or
new-incident notification mentions the "Fog" record. -/
theorem spec_C5_witness :
    runMain envOkAll 7 (FeedOutcome.ok ([] ++ mkIncident 5 "Fog" :: []))
        none [mkStored 5 "Vehicle Crash" "r" "l" "c" Status.active] =
      runMain envOkAll 7 (FeedOutcome.ok ([] ++ []))
        none [mkStored 5 "Vehicle Crash" "r" "l" "c" Status.active] ∧
    Event.newNotification (mkIncident 5 "Fog") "" ∉
      (runMain envOkAll 7 (FeedOutcome.ok ([] ++ mkIncident 5 "Fog" :: []))
        none [mkStored 5 "Vehicle Crash" "r" "l" "c" Status.active]).events ∧
    Event.upsertCall (mkIncident 5 "Fog") ∉
      (runMain envOkAll 7 (FeedOutcome.ok ([] ++ mkIncident 5 "Fog" :: []))
        none [mkStored 5 "Vehicle Crash" "r" "l" "c" Status.active]).events := by
  obtain ⟨h1, h2, h3⟩ := spec_C5 envOkAll 7 [] [] (mkIncident 5 "Fog")
    none [mkStored 5 "Vehicle Crash" "r" "l" "c" Status.active] (by decide)
  exact ⟨h1, h2 "", h3⟩

/-- C8: every new-incident notification carries the parsed start time
formatted in Eastern time when RFC3339 parsing succeeds, and the raw feed
string verbatim when parsing fails; in particular, for a record selected
for notification, a parse failure still sends the notification (with the
verbatim string) — it aborts neither the record nor the run. -/
theorem spec_C8 (env : Env) (now : Int) (l : List Incident) (file : Option String)
    (store : Store) (st2 : Store) (f2 : Option String) (evs : List Event) (sn : NotifiedSet)
    (x : Incident) (s0 : NotifiedSet)
    (hrun : runMain env now (.ok l) file store = .completed st2 f2 evs sn)
    (hl : loadSentIncidents file = .ok s0)
    (hx : x ∈ filterCrashes l)
    (hnodup : ((filterCrashes l).map (fun c => c.id)).Nodup)
    (hs : sentMem s0 x.id = false)
    (htz : env.tzOk x.id = true) :
    (∀ c ft, Event.newNotification c ft ∈ evs →
      ft = (match env.parseTime c.startTime with
            | some t => env.formatEastern t
            | none => c.startTime)) ∧
    (env.parseTime x.startTime = none → Event.newNotification x x.startTime ∈ evs) ∧
    (∀ t, env.parseTime x.startTime = some t →
      Event.newNotification x (env.formatEastern t) ∈ evs) := by
  obtain ⟨hp, s0', hl', hst, hf2, hevs, hsn⟩ :=
    runMain_completed_inv env now l file store st2 f2 evs sn hrun
  rw [hl] at hl'
  rw [Except.ok.injEq] at hl'
  subst hl'
  subst hevs
  have hmem : Event.newNotification x (displayTime env x.startTime) ∈
      (runLoop env (filterCrashes l) store s0).events :=
    runLoop_notif_mem env x (filterCrashes l) store s0 hx hnodup hs htz
  refine ⟨?_, ?_, ?_⟩
  · intro c ft he
    rcases List.mem_append.mp he with h1 | h1
    · rcases runLoop_events_shape env _ _ _ _ h1 with ⟨d, _, hd⟩ | ⟨d, _, hd⟩
      · cases hd
      · rw [Event.newNotification.injEq] at hd
        rw [hd.2, hd.1, displayTime]
    · obtain ⟨_, hn, _⟩ := clearPass_events_shape env now _ _ _ h1
      cases hn
  · intro hnone
    have : displayTime env x.startTime = x.startTime := by
      rw [displayTime, hnone]
    rw [this] at hmem
    exact List.mem_append.mpr (Or.inl hmem)
  · intro t hsome
    have : displayTime env x.startTime = env.formatEastern t := by
      rw [displayTime, hsome]
    rw [this] at hmem
    exact List.mem_append.mpr (Or.inl hmem)

/-- Witness for C8: with an environment whose time parsing always fails,
the fresh record with identifier 5 is notified with its raw start-time
string. -/
theorem spec_C8_witness :
    Event.newNotification (mkIncident 5 "Vehicle Crash")
        (mkIncident 5 "Vehicle Crash").startTime ∈
      (runMain envOkAll 0 (FeedOutcome.ok [mkIncident 5 "Vehicle Crash"]) none []).events :=
  (spec_C8 envOkAll 0 [mkIncident 5 "Vehicle Crash"] none [] _ _ _ _
    (mkIncident 5 "Vehicle Crash") [] rfl rfl (by decide) (by decide) (by decide)
    (by decide)).2.1 rfl

/-- C9 (implicit): when the timezone load fails for a record in the
notify-new pass, no new-incident notification is sent for its identifier,
the identifier is not added to the notified set (so it stays eligible for
a later run), yet its upsert call was already issued in the same
iteration. -/
theorem spec_C9 (env : Env) (now : Int) (l : List Incident) (file : Option String)
    (store : Store) (st2 : Store) (f2 : Option String) (evs : List Event) (sn : NotifiedSet)
    (x : Incident) (s0 : NotifiedSet)
    (hrun : runMain env now (.ok l) file store = .completed st2 f2 evs sn)
    (hl : loadSentIncidents file = .ok s0)
    (hx : x ∈ filterCrashes l)
    (hs : sentMem s0 x.id = false)
    (htz : env.tzOk x.id = false) :
    countNewFor x.id evs = 0 ∧ sentMem sn x.id = false ∧ Event.upsertCall x ∈ evs := by
  obtain ⟨hp, s0', hl', hst, hf2, hevs, hsn⟩ :=
    runMain_completed_inv env now l file store st2 f2 evs sn hrun
  rw [hl] at hl'
  rw [Except.ok.injEq] at hl'
  subst hl'
  subst hevs
  subst hsn
  obtain ⟨hcount, hsent⟩ := runLoop_tzfail_none env x.id (filterCrashes l) store s0 hs htz
  refine ⟨?_, hsent, ?_⟩
  · rw [countNewFor, List.countP_append]
    rw [countNewFor] at hcount
    rw [hcount]
    have := clearPass_countNew_zero env now
      (runLoop env (filterCrashes l) store s0).store (feedHasId (filterCrashes l)) x.id
    rw [countNewFor] at this
    rw [this]
  · exact List.mem_append.mpr
      (Or.inl (runLoop_upsert_mem env (filterCrashes l) store s0 x hx))

/-- Witness for C9: with a failing timezone load, the fresh record with
identifier 5 is upserted but neither notified nor marked sent. -/
theorem spec_C9_witness :
    countNewFor (mkIncident 5 "Vehicle Crash").id (RunResult.events (runMain
      { envOkAll with tzOk := fun _ => false } 0
      (FeedOutcome.ok [mkIncident 5 "Vehicle Crash"]) none [])) = 0 ∧
    sentMem (RunResult.sentAfter (runMain { envOkAll with tzOk := fun _ => false } 0
      (FeedOutcome.ok [mkIncident 5 "Vehicle Crash"]) none [])) (mkIncident 5 "Vehicle Crash").id
      = false ∧
    Event.upsertCall (mkIncident 5 "Vehicle Crash") ∈
      RunResult.events (runMain { envOkAll with tzOk := fun _ => false } 0
        (FeedOutcome.ok [mkIncident 5 "Vehicle Crash"]) none []) :=
  spec_C9 { envOkAll with tzOk := fun _ => false } 0 [mkIncident 5 "Vehicle Crash"] none []
    _ _ _ _ (mkIncident 5 "Vehicle Crash") [] rfl rfl (by decide) (by decide) rfl

/-- The crashes-to-clear list restricted to identifier `r.id` is exactly
the projection of the stored row `r`, when `r` is the unique row with
that identifier, is an active Vehicle Crash, and the identifier is absent
from the current snapshot. -/
theorem toClear_filter_eq (store1 : Store) (cur : Int → Bool) (r : StoredIncident)
    (hfilter : store1.filter (fun row => row.id == r.id) = [r])
    (hact : r.status = Status.active) (hvc : r.incidentType = "Vehicle Crash")
    (hcur : cur r.id = false) :
    ((queryActiveCrashes store1).filter (fun c => !(cur c.id))).filter
        (fun c => c.id == r.id) =
      [{ id := r.id, road := r.road, location := r.location, city := r.city }] := by
  rw [filter_comm]
  rw [queryActive_filter_key, hfilter]
  rw [show List.filter (fun row => row.status == Status.active &&
      row.incidentType == "Vehicle Crash") [r] = [r] from by
    simp [List.filter, hact, hvc]]
  rw [List.map_cons, List.map_nil]
  rw [List.filter_cons]
  rw [if_pos (by
    show (!(cur ({ id := r.id, road := r.road, location := r.location, city := r.city } :
      ClearedIncident).id)) = true
    rw [show ({ id := r.id, road := r.road, location := r.location, city := r.city } :
      ClearedIncident).id = r.id from rfl, hcur]
    rfl)]
  rfl

/-- C2: for a stored active Vehicle Crash row whose identifier is absent
from the filtered snapshot, a completed run (with a working query and a
working cleared-UPDATE) marks the row cleared with the run's timestamp,
emits exactly one cleared notification for it — carrying only identifier,
road, location and city — and makes no upsert call for that identifier. -/
theorem spec_C2 (env : Env) (now : Int) (l : List Incident) (file : Option String)
    (store : Store) (st2 : Store) (f2 : Option String) (evs : List Event) (sn : NotifiedSet)
    (r : StoredIncident)
    (hrun : runMain env now (.ok l) file store = .completed st2 f2 evs sn)
    (hquery : env.queryActiveOk = true)
    (hclear : env.clearOk r.id = true)
    (hnodup : (store.map (fun row => row.id)).Nodup)
    (hmem : r ∈ store)
    (hact : r.status = Status.active)
    (hvc : r.incidentType = "Vehicle Crash")
    (habs : ∀ c ∈ filterCrashes l, c.id ≠ r.id) :
    ({ r with status := Status.cleared, clearedTime := some now } : StoredIncident) ∈ st2 ∧
    countClearedFor r.id evs = 1 ∧
    Event.clearedNotification
      { id := r.id, road := r.road, location := r.location, city := r.city } ∈ evs ∧
    countUpsertFor r.id evs = 0 := by
  obtain ⟨hp, s0, hl, hst, hf2, hevs, hsn⟩ :=
    runMain_completed_inv env now l file store st2 f2 evs sn hrun
  subst hevs
  subst hst
  have hstore : store.filter (fun row => row.id == r.id) = [r] :=
    filter_key_single (fun row => row.id) hmem hnodup
  have hstore1 : (runLoop env (filterCrashes l) store s0).store.filter
      (fun row => row.id == r.id) = [r] := by
    rw [runLoop_store_filter env r.id (filterCrashes l) store s0 habs]
    exact hstore
  have hcur : feedHasId (filterCrashes l) r.id = false :=
    feedHasId_false (filterCrashes l) r.id habs
  have htc := toClear_filter_eq (runLoop env (filterCrashes l) store s0).store
    (feedHasId (filterCrashes l)) r hstore1 hact hvc hcur
  have hcp : clearPass env now (runLoop env (filterCrashes l) store s0).store
      (feedHasId (filterCrashes l)) =
      clearLoop env now
        ((queryActiveCrashes (runLoop env (filterCrashes l) store s0).store).filter
          (fun c => !(feedHasId (filterCrashes l) c.id)))
        (runLoop env (filterCrashes l) store s0).store := by
    rw [clearPass, if_pos hquery]
  rw [hcp]
  have hprojmem : ({ id := r.id, road := r.road, location := r.location, city := r.city } :
      ClearedIncident) ∈
      (queryActiveCrashes (runLoop env (filterCrashes l) store s0).store).filter
        (fun c => !(feedHasId (filterCrashes l) c.id)) := by
    have hstep : ({ id := r.id, road := r.road, location := r.location, city := r.city } :
        ClearedIncident) ∈ List.filter (fun c => c.id == r.id)
        ((queryActiveCrashes (runLoop env (filterCrashes l) store s0).store).filter
          (fun c => !(feedHasId (filterCrashes l) c.id))) := by
      rw [htc]
      exact List.mem_singleton_self _
    exact List.mem_of_mem_filter hstep
  refine ⟨?_, ?_, ?_, ?_⟩
  · have hcl := clearLoop_store_cleared env now r.id
      { id := r.id, road := r.road, location := r.location, city := r.city }
      ((queryActiveCrashes (runLoop env (filterCrashes l) store s0).store).filter
        (fun c => !(feedHasId (filterCrashes l) c.id)))
      (runLoop env (filterCrashes l) store s0).store htc hclear rfl
    rw [hstore1] at hcl
    have hstep : ({ r with status := Status.cleared, clearedTime := some now } :
        StoredIncident) ∈ List.filter (fun row => row.id == r.id)
        (clearLoop env now
          ((queryActiveCrashes (runLoop env (filterCrashes l) store s0).store).filter
            (fun c => !(feedHasId (filterCrashes l) c.id)))
          (runLoop env (filterCrashes l) store s0).store).1 := by
      rw [hcl]
      exact List.mem_singleton_self _
    exact List.mem_of_mem_filter hstep
  · rw [countClearedFor, List.countP_append]
    have h0 := countClearedFor_runLoop env r.id (filterCrashes l) store s0
    rw [countClearedFor] at h0
    rw [h0]
    have hc := clearLoop_count env now r.id
      ((queryActiveCrashes (runLoop env (filterCrashes l) store s0).store).filter
        (fun c => !(feedHasId (filterCrashes l) c.id)))
      (runLoop env (filterCrashes l) store s0).store
    rw [countClearedFor] at hc
    rw [hc]
    have hcp2 := List.countP_filter (fun (c : ClearedIncident) => env.clearOk c.id)
      (fun c => c.id == r.id)
      ((queryActiveCrashes (runLoop env (filterCrashes l) store s0).store).filter
        (fun c => !(feedHasId (filterCrashes l) c.id)))
    rw [htc] at hcp2
    have hone : List.countP (fun (c : ClearedIncident) => env.clearOk c.id)
        [({ id := r.id, road := r.road, location := r.location, city := r.city } :
          ClearedIncident)] = 1 := by
      simp [List.countP_cons, hclear]
    rw [hone] at hcp2
    rw [show (List.countP (fun c => c.id == r.id && env.clearOk c.id)
        ((queryActiveCrashes (runLoop env (filterCrashes l) store s0).store).filter
          (fun c => !(feedHasId (filterCrashes l) c.id)))) =
        (List.countP (fun c => env.clearOk c.id && (c.id == r.id))
        ((queryActiveCrashes (runLoop env (filterCrashes l) store s0).store).filter
          (fun c => !(feedHasId (filterCrashes l) c.id)))) from
      List.countP_congr (fun c _ => by rw [Bool.and_comm])]
    rw [← hcp2]
  · exact List.mem_append.mpr (Or.inr (clearLoop_notif_mem env now _ _ _ hprojmem hclear))
  · rw [countUpsertFor, List.countP_append]
    have h1 := runLoop_countUpsert env r.id (filterCrashes l) store s0
    rw [countUpsertFor] at h1
    rw [h1]
    have h2 := clearPass_countUpsert_zero env now
      (runLoop env (filterCrashes l) store s0).store (feedHasId (filterCrashes l)) r.id
    rw [hcp, countUpsertFor] at h2
    rw [h2]
    rw [List.countP_eq_zero.mpr (by
      intro c hc hcx
      exact habs c hc (beq_iff_eq.mp hcx))]

/-- Witness for C2: a lone active Vehicle Crash row with identifier 7 and
an empty feed: the run clears it, emits exactly one cleared notification
for it, and makes no upsert call for identifier 7. -/
theorem spec_C2_witness :
    ({ mkStored 7 "Vehicle Crash" "r" "l" "c" Status.active with
        status := Status.cleared, clearedTime := some 7 } : StoredIncident) ∈
      RunResult.storeAfter (runMain envOkAll 7 (FeedOutcome.ok []) none
        [mkStored 7 "Vehicle Crash" "r" "l" "c" Status.active]) ∧
    countClearedFor (mkStored 7 "Vehicle Crash" "r" "l" "c" Status.active).id
      (RunResult.events (runMain envOkAll 7 (FeedOutcome.ok []) none
        [mkStored 7 "Vehicle Crash" "r" "l" "c" Status.active])) = 1 ∧
    Event.clearedNotification
      { id := (mkStored 7 "Vehicle Crash" "r" "l" "c" Status.active).id,
        road := (mkStored 7 "Vehicle Crash" "r" "l" "c" Status.active).road,
        location := (mkStored 7 "Vehicle Crash" "r" "l" "c" Status.active).location,
        city := (mkStored 7 "Vehicle Crash" "r" "l" "c" Status.active).city } ∈
      RunResult.events (runMain envOkAll 7 (FeedOutcome.ok []) none
        [mkStored 7 "Vehicle Crash" "r" "l" "c" Status.active]) ∧
    countUpsertFor (mkStored 7 "Vehicle Crash" "r" "l" "c" Status.active).id
      (RunResult.events (runMain envOkAll 7 (FeedOutcome.ok []) none
        [mkStored 7 "Vehicle Crash" "r" "l" "c" Status.active])) = 0 :=
  spec_C2 envOkAll 7 [] none [mkStored 7 "Vehicle Crash" "r" "l" "c" Status.active]
    _ _ _ _ (mkStored 7 "Vehicle Crash" "r" "l" "c" Status.active)
    rfl rfl rfl (by decide) (by decide) rfl rfl (by decide)

/-- C10 (implicit): for a stored active Vehicle Crash row whose identifier
is absent from the filtered snapshot, the cleared notification is sent if
and only if the cleared-UPDATE succeeds: on success the row is cleared
and notified (exactly once); on failure no cleared notification for that
identifier is emitted and the row remains exactly as it was (still
active), so the next run re-attempts it. -/
theorem spec_C10 (env : Env) (now : Int) (l : List Incident) (file : Option String)
    (store : Store) (st2 : Store) (f2 : Option String) (evs : List Event) (sn : NotifiedSet)
    (r : StoredIncident)
    (hrun : runMain env now (.ok l) file store = .completed st2 f2 evs sn)
    (hquery : env.queryActiveOk = true)
    (hnodup : (store.map (fun row => row.id)).Nodup)
    (hmem : r ∈ store)
    (hact : r.status = Status.active)
    (hvc : r.incidentType = "Vehicle Crash")
    (habs : ∀ c ∈ filterCrashes l, c.id ≠ r.id) :
    countClearedFor r.id evs = (if env.clearOk r.id = true then 1 else 0) ∧
    (env.clearOk r.id = true →
      ({ r with status := Status.cleared, clearedTime := some now } : StoredIncident) ∈ st2 ∧
      Event.clearedNotification
        { id := r.id, road := r.road, location := r.location, city := r.city } ∈ evs) ∧
    (env.clearOk r.id = false → r ∈ st2 ∧ countClearedFor r.id evs = 0) := by
  obtain ⟨hp, s0, hl, hst, hf2, hevs, hsn⟩ :=
    runMain_completed_inv env now l file store st2 f2 evs sn hrun
  subst hevs
  subst hst
  have hstore : store.filter (fun row => row.id == r.id) = [r] :=
    filter_key_single (fun row => row.id) hmem hnodup
  have hstore1 : (runLoop env (filterCrashes l) store s0).store.filter
      (fun row => row.id == r.id) = [r] := by
    rw [runLoop_store_filter env r.id (filterCrashes l) store s0 habs]
    exact hstore
  have hcur : feedHasId (filterCrashes l) r.id = false :=
    feedHasId_false (filterCrashes l) r.id habs
  have htc := toClear_filter_eq (runLoop env (filterCrashes l) store s0).store
    (feedHasId (filterCrashes l)) r hstore1 hact hvc hcur
  have hcp : clearPass env now (runLoop env (filterCrashes l) store s0).store
      (feedHasId (filterCrashes l)) =
      clearLoop env now
        ((queryActiveCrashes (runLoop env (filterCrashes l) store s0).store).filter
          (fun c => !(feedHasId (filterCrashes l) c.id)))
        (runLoop env (filterCrashes l) store s0).store := by
    rw [clearPass, if_pos hquery]
  rw [hcp]
  have hcount : countClearedFor r.id
      ((runLoop env (filterCrashes l) store s0).events ++
        (clearLoop env now
          ((queryActiveCrashes (runLoop env (filterCrashes l) store s0).store).filter
            (fun c => !(feedHasId (filterCrashes l) c.id)))
          (runLoop env (filterCrashes l) store s0).store).2) =
      (if env.clearOk r.id = true then 1 else 0) := by
    rw [countClearedFor, List.countP_append]
    have h0 := countClearedFor_runLoop env r.id (filterCrashes l) store s0
    rw [countClearedFor] at h0
    rw [h0]
    have hc := clearLoop_count env now r.id
      ((queryActiveCrashes (runLoop env (filterCrashes l) store s0).store).filter
        (fun c => !(feedHasId (filterCrashes l) c.id)))
      (runLoop env (filterCrashes l) store s0).store
    rw [countClearedFor] at hc
    rw [hc]
    have hcp2 := List.countP_filter (fun (c : ClearedIncident) => env.clearOk c.id)
      (fun c => c.id == r.id)
      ((queryActiveCrashes (runLoop env (filterCrashes l) store s0).store).filter
        (fun c => !(feedHasId (filterCrashes l) c.id)))
    rw [htc] at hcp2
    have hone : List.countP (fun (c : ClearedIncident) => env.clearOk c.id)
        [({ id := r.id, road := r.road, location := r.location, city := r.city } :
          ClearedIncident)] = (if env.clearOk r.id = true then 1 else 0) := by
      rw [List.countP_cons]
      rw [show List.countP (fun (c : ClearedIncident) => env.clearOk c.id) [] = 0 from rfl]
      rw [show ({ id := r.id, road := r.road, location := r.location, city := r.city } :
        ClearedIncident).id = r.id from rfl]
      omega
    rw [hone] at hcp2
    rw [show (List.countP (fun c => c.id == r.id && env.clearOk c.id)
        ((queryActiveCrashes (runLoop env (filterCrashes l) store s0).store).filter
          (fun c => !(feedHasId (filterCrashes l) c.id)))) =
        (List.countP (fun c => env.clearOk c.id && (c.id == r.id))
        ((queryActiveCrashes (runLoop env (filterCrashes l) store s0).store).filter
          (fun c => !(feedHasId (filterCrashes l) c.id)))) from
      List.countP_congr (fun c _ => by rw [Bool.and_comm])]
    rw [← hcp2]
    omega
  refine ⟨hcount, ?_, ?_⟩
  · intro hco
    constructor
    · have hcl := clearLoop_store_cleared env now r.id
        { id := r.id, road := r.road, location := r.location, city := r.city }
        ((queryActiveCrashes (runLoop env (filterCrashes l) store s0).store).filter
          (fun c => !(feedHasId (filterCrashes l) c.id)))
        (runLoop env (filterCrashes l) store s0).store htc hco rfl
      rw [hstore1] at hcl
      have hstep : ({ r with status := Status.cleared, clearedTime := some now } :
          StoredIncident) ∈ List.filter (fun row => row.id == r.id)
          (clearLoop env now
            ((queryActiveCrashes (runLoop env (filterCrashes l) store s0).store).filter
              (fun c => !(feedHasId (filterCrashes l) c.id)))
            (runLoop env (filterCrashes l) store s0).store).1 := by
        rw [hcl]
        exact List.mem_singleton_self _
      exact List.mem_of_mem_filter hstep
    · have hprojmem : ({ id := r.id, road := r.road, location := r.location, city := r.city } :
          ClearedIncident) ∈
          (queryActiveCrashes (runLoop env (filterCrashes l) store s0).store).filter
            (fun c => !(feedHasId (filterCrashes l) c.id)) := by
        have hstep : ({ id := r.id, road := r.road, location := r.location, city := r.city } :
            ClearedIncident) ∈ List.filter (fun c => c.id == r.id)
            ((queryActiveCrashes (runLoop env (filterCrashes l) store s0).store).filter
              (fun c => !(feedHasId (filterCrashes l) c.id))) := by
          rw [htc]
          exact List.mem_singleton_self _
        exact List.mem_of_mem_filter hstep
      exact List.mem_append.mpr (Or.inr (clearLoop_notif_mem env now _ _ _ hprojmem hco))
  · intro hco
    constructor
    · have hno : ∀ c ∈ ((queryActiveCrashes
          (runLoop env (filterCrashes l) store s0).store).filter
            (fun c => !(feedHasId (filterCrashes l) c.id))), c.id = r.id →
          env.clearOk c.id = false := by
        intro c hc hcid
        have hstep : c ∈ List.filter (fun c => c.id == r.id)
            ((queryActiveCrashes (runLoop env (filterCrashes l) store s0).store).filter
              (fun c => !(feedHasId (filterCrashes l) c.id))) :=
          List.mem_filter.mpr ⟨hc, beq_iff_eq.mpr hcid⟩
        rw [htc] at hstep
        rw [List.mem_singleton] at hstep
        rw [hstep]
        exact hco
      have hframe := clearLoop_store_frame env now r.id
        ((queryActiveCrashes (runLoop env (filterCrashes l) store s0).store).filter
          (fun c => !(feedHasId (filterCrashes l) c.id)))
        (runLoop env (filterCrashes l) store s0).store hno
      rw [hstore1] at hframe
      have hstep : r ∈ List.filter (fun row => row.id == r.id)
          (clearLoop env now
            ((queryActiveCrashes (runLoop env (filterCrashes l) store s0).store).filter
              (fun c => !(feedHasId (filterCrashes l) c.id)))
            (runLoop env (filterCrashes l) store s0).store).1 := by
        rw [hframe]
        exact List.mem_singleton_self _
      exact List.mem_of_mem_filter hstep
    · rw [hcount, if_neg (by rw [hco]; exact fun he => by cases he)]

/-- Witness for C10: the success branch — with the UPDATE succeeding, the
row with identifier 7 is cleared and notified exactly once. -/
theorem spec_C10_witness :
    countClearedFor (mkStored 7 "Vehicle Crash" "r" "l" "c" Status.active).id
      (RunResult.events (runMain envOkAll 7 (FeedOutcome.ok []) none
        [mkStored 7 "Vehicle Crash" "r" "l" "c" Status.active])) = 1 ∧
    ({ mkStored 7 "Vehicle Crash" "r" "l" "c" Status.active with
        status := Status.cleared, clearedTime := some 7 } : StoredIncident) ∈
      RunResult.storeAfter (runMain envOkAll 7 (FeedOutcome.ok []) none
        [mkStored 7 "Vehicle Crash" "r" "l" "c" Status.active]) := by
  obtain ⟨h1, h2, _⟩ := spec_C10 envOkAll 7 [] none
    [mkStored 7 "Vehicle Crash" "r" "l" "c" Status.active]
    _ _ _ _ (mkStored 7 "Vehicle Crash" "r" "l" "c" Status.active)
    rfl rfl (by decide) (by decide) rfl rfl (by decide)
  obtain ⟨h3, _⟩ := h2 rfl
  rw [if_pos (show envOkAll.clearOk (mkStored 7 "Vehicle Crash" "r" "l" "c"
    Status.active).id = true from rfl)] at h1
  exact ⟨h1, h3⟩

/-! ## Multi-run lemmas -/

/-- A completed run on a snapshot containing a fresh identifier (with a
working timezone load) notifies it exactly once and marks it sent. -/
theorem runMain_notify_x (env : Env) (now : Int) (l : List Incident) (file : Option String)
    (store : Store) (s0 : NotifiedSet) (x : Int)
    (hp : env.dbPingOk = true) (hl : loadSentIncidents file = .ok s0)
    (hs : sentMem s0 x = false) (hx : x ∈ (filterCrashes l).map (fun i => i.id))
    (htz : env.tzOk x = true) :
    countNewFor x (RunResult.events (runMain env now (.ok l) file store)) = 1 ∧
    sentMem (RunResult.sentAfter (runMain env now (.ok l) file store)) x = true := by
  rw [runMain_ok_eq env now l file store s0 hp hl]
  rw [RunResult.events, RunResult.sentAfter]
  obtain ⟨h1, h2⟩ := runLoop_notify_once env x (filterCrashes l) store s0 hs hx htz
  refine ⟨?_, h2⟩
  rw [countNewFor, List.countP_append]
  rw [countNewFor] at h1
  rw [h1]
  have h0 := clearPass_countNew_zero env now (runLoop env (filterCrashes l) store s0).store
    (feedHasId (filterCrashes l)) x
  rw [countNewFor] at h0
  rw [h0]

/-- A completed run on an identifier already marked sent never notifies it
again and keeps it marked. -/
theorem runMain_skip_x (env : Env) (now : Int) (l : List Incident) (file : Option String)
    (store : Store) (s0 : NotifiedSet) (x : Int)
    (hp : env.dbPingOk = true) (hl : loadSentIncidents file = .ok s0)
    (hs : sentMem s0 x = true) :
    countNewFor x (RunResult.events (runMain env now (.ok l) file store)) = 0 ∧
    sentMem (RunResult.sentAfter (runMain env now (.ok l) file store)) x = true := by
  rw [runMain_ok_eq env now l file store s0 hp hl]
  rw [RunResult.events, RunResult.sentAfter]
  obtain ⟨h1, h2⟩ := runLoop_skip_of_mem env x (filterCrashes l) store s0 hs
  refine ⟨?_, h2⟩
  rw [countNewFor, List.countP_append]
  rw [countNewFor] at h1
  rw [h1]
  have h0 := clearPass_countNew_zero env now (runLoop env (filterCrashes l) store s0).store
    (feedHasId (filterCrashes l)) x
  rw [countNewFor] at h0
  rw [h0]

/-- When the ledger save succeeds, the next run loads exactly the
notified set this run ends with. -/
theorem runMain_save_loads (env : Env) (now : Int) (l : List Incident) (file : Option String)
    (store : Store) (s0 : NotifiedSet)
    (hp : env.dbPingOk = true) (hl : loadSentIncidents file = .ok s0)
    (hsave : env.saveOk = true) :
    loadSentIncidents (RunResult.fileAfter (runMain env now (.ok l) file store)) =
      .ok (RunResult.sentAfter (runMain env now (.ok l) file store)) := by
  rw [runMain_ok_eq env now l file store s0 hp hl]
  rw [RunResult.fileAfter, RunResult.sentAfter]
  rw [if_pos hsave]
  exact load_save_round _
    (runLoop_sent_nodup env (filterCrashes l) store s0 (loadSentIncidents_nodup file s0 hl))

/-- Unfolding one completed run of a run sequence. -/
theorem runChain_cons_of_ok (c : RunCfg) (rest : List RunCfg) (file : Option String)
    (store : Store) (l : List Incident) (s0 : NotifiedSet)
    (hfeed : c.feed = .ok l) (hp : c.env.dbPingOk = true)
    (hl : loadSentIncidents file = .ok s0) :
    (runChain (c :: rest) file store).2.2 =
      RunResult.events (runMain c.env c.now (.ok l) file store) ::
        (runChain rest (RunResult.fileAfter (runMain c.env c.now (.ok l) file store))
          (RunResult.storeAfter (runMain c.env c.now (.ok l) file store))).2.2 := by
  rw [runChain, hfeed]
  rw [runMain_ok_eq c.env c.now l file store s0 hp hl]
  rfl

/-- Once an identifier is in the persisted ledger, no later run (with a
working ping, save and feed) ever notifies it again. -/
theorem runChain_skip (x : Int) : ∀ (cfgs : List RunCfg) (file : Option String)
    (store : Store) (s : NotifiedSet),
    loadSentIncidents file = .ok s → sentMem s x = true →
    (∀ cf ∈ cfgs, cf.env.dbPingOk = true ∧ cf.env.saveOk = true ∧ ∃ l, cf.feed = .ok l) →
    ((runChain cfgs file store).2.2.map (countNewFor x)).sum = 0 := by
  intro cfgs
  induction cfgs with
  | nil => intro file store s _ _ _; rfl
  | cons c rest ih =>
      intro file store s hload hmem hall
      obtain ⟨hp, hsave, l, hfeed⟩ := hall c (List.mem_cons_self c rest)
      rw [runChain_cons_of_ok c rest file store l s hfeed hp hload]
      rw [List.map_cons, List.sum_cons]
      obtain ⟨h1, h2⟩ := runMain_skip_x c.env c.now l file store s x hp hload hmem
      rw [h1]
      rw [ih (RunResult.fileAfter (runMain c.env c.now (.ok l) file store))
        (RunResult.storeAfter (runMain c.env c.now (.ok l) file store))
        (RunResult.sentAfter (runMain c.env c.now (.ok l) file store))
        (runMain_save_loads c.env c.now l file store s hp hload hsave) h2
        (fun cf hcf => hall cf (List.mem_cons_of_mem c hcf))]

/-- C1: for an identifier absent from the initially loaded ledger and
present in the filtered snapshot of every run of a sequence of completed
runs (each with a working ping, timezone load and ledger save), exactly
one new-incident notification is sent for it across the whole sequence,
namely in the first run; every later run sends none. -/
theorem spec_C1 (c : RunCfg) (rest : List RunCfg) (file0 : Option String) (store0 : Store)
    (x : Int) (s0 : NotifiedSet)
    (hload : loadSentIncidents file0 = .ok s0)
    (habs : sentMem s0 x = false)
    (hall : ∀ cf ∈ c :: rest, cf.env.dbPingOk = true ∧ cf.env.saveOk = true ∧
      cf.env.tzOk x = true ∧ ∃ l, cf.feed = .ok l ∧
        x ∈ (filterCrashes l).map (fun i => i.id)) :
    ∃ evs1 tail, (runChain (c :: rest) file0 store0).2.2 = evs1 :: tail ∧
      countNewFor x evs1 = 1 ∧ (tail.map (countNewFor x)).sum = 0 := by
  obtain ⟨hp, hsave, htz, l, hfeed, hx⟩ := hall c (List.mem_cons_self c rest)
  rw [runChain_cons_of_ok c rest file0 store0 l s0 hfeed hp hload]
  obtain ⟨h1, h2⟩ := runMain_notify_x c.env c.now l file0 store0 s0 x hp hload habs hx htz
  refine ⟨_, _, rfl, h1, ?_⟩
  exact runChain_skip x rest
    (RunResult.fileAfter (runMain c.env c.now (.ok l) file0 store0))
    (RunResult.storeAfter (runMain c.env c.now (.ok l) file0 store0))
    (RunResult.sentAfter (runMain c.env c.now (.ok l) file0 store0))
    (runMain_save_loads c.env c.now l file0 store0 s0 hp hload hsave) h2
    (fun cf hcf =>
      let h := hall cf (List.mem_cons_of_mem c hcf)
      ⟨h.1, h.2.1, h.2.2.2.imp (fun l hl => hl.1)⟩)

/-- Witness for C1: two consecutive runs both reporting crash 5 on an
initially missing ledger send exactly one notification for identifier 5
in total. -/
theorem spec_C1_witness :
    (((runChain [⟨envOkAll, 0, FeedOutcome.ok [mkIncident 5 "Vehicle Crash"]⟩,
        ⟨envOkAll, 1, FeedOutcome.ok [mkIncident 5 "Vehicle Crash"]⟩] none []).2.2.map
      (countNewFor 5)).sum) = 1 := by
  obtain ⟨evs1, tail, heq, h1, h2⟩ := spec_C1
    ⟨envOkAll, 0, FeedOutcome.ok [mkIncident 5 "Vehicle Crash"]⟩
    [⟨envOkAll, 1, FeedOutcome.ok [mkIncident 5 "Vehicle Crash"]⟩] none [] 5 [] rfl rfl
    (by
      intro cf hcf
      rcases List.mem_cons.mp hcf with rfl | hcf'
      · exact ⟨rfl, rfl, rfl, [mkIncident 5 "Vehicle Crash"], rfl, by decide⟩
      · rw [List.mem_singleton] at hcf'
        rw [hcf']
        exact ⟨rfl, rfl, rfl, [mkIncident 5 "Vehicle Crash"], rfl, by decide⟩)
  rw [heq, List.map_cons, List.sum_cons, h1, h2]
